import Mathlib

/-!
Verification of the `Shared` future combinator (`src/future/shared.rs`).

The combinator wraps a single poll-driven computation so that it can be
cloned and polled from many threads.  The shared inner core holds:

* `original_future : Lock<Option<F>>` — the drive slot, guarded by a
  non-blocking try-lock;
* `result_ready : AtomicBool` — the fast-path flag;
* `state : RwLock<State>` — either `Waiting(waiters)` or `Done(outcome)`.

The development embeds the code at two levels:

1. Pure functions mirroring the sequential bodies (`store_result`, the
   result cells `SharedItem` / `SharedError`).  `Arc` allocation identity
   is modelled by a numeric allocation tag carried inside the cell;
   cloning keeps the tag, so "same underlying allocation" is equality of
   the whole cell.  A panic is modelled as an `Option`-`none` return,
   paired with the memory state at the instant the panic fires.
2. A small-step interleaving machine (`Step`, `Reach`) over a global
   state with one program counter per thread, where each step touches the
   shared fields exactly as the corresponding atomic action of
   `Shared::poll` does.  The underlying future is the canonical
   "completes after exactly `K` polls with outcome `out`" computation:
   its private state is its poll counter, stored inside the drive slot.
-/

set_option maxHeartbeats 1000000

variable {α ε : Type}

/-- Model of `SharedItem<T>` (shared.rs lines 183-205): an `Arc<T>` wrapper.
The `alloc` field is the identity of the underlying allocation. -/
structure SharedItem (α : Type) where
  alloc : Nat
  item : α
deriving DecidableEq

/-- Model of `SharedItem::new` (line 188): `Arc::new(item)` with a fresh
allocation tag `a`, supplied by the caller's allocator state. -/
def SharedItem.new (a : Nat) (v : α) : SharedItem α :=
  { alloc := a, item := v }

/-- Model of `Clone for SharedItem` (lines 193-197): bump the reference
count of the same allocation; the value itself is not copied. -/
def SharedItem.clone (s : SharedItem α) : SharedItem α :=
  { alloc := s.alloc, item := s.item }

/-- Model of `Deref for SharedItem` (lines 199-205). -/
def SharedItem.deref (s : SharedItem α) : α :=
  s.item

/-- Model of `SharedError<E>` (shared.rs lines 210-232): an `Arc<E>` wrapper. -/
structure SharedError (ε : Type) where
  alloc : Nat
  error : ε
deriving DecidableEq

/-- Model of `SharedError::new` (line 215). -/
def SharedError.new (a : Nat) (e : ε) : SharedError ε :=
  { alloc := a, error := e }

/-- Model of `Clone for SharedError` (lines 220-224). -/
def SharedError.clone (s : SharedError ε) : SharedError ε :=
  { alloc := s.alloc, error := s.error }

/-- Model of `Deref for SharedError` (lines 226-232). -/
def SharedError.deref (s : SharedError ε) : ε :=
  s.error

deriving instance DecidableEq for Except

/-- Model of `State<T, E>` (shared.rs lines 50-53).  Waiter (task) handles
are thread identifiers. -/
inductive SState (α ε : Type) where
  | Waiting : List Nat → SState α ε
  | Done : Except (SharedError ε) (SharedItem α) → SState α ε
deriving DecidableEq

/-- The value a call to `Shared::poll` returns: `Ok(Async::Ready(item))`,
`Ok(Async::NotReady)` or `Err(error)`. -/
inductive PollRes (α ε : Type) where
  | ready : SharedItem α → PollRes α ε
  | notReady : PollRes α ε
  | err : SharedError ε → PollRes α ε
deriving DecidableEq

/-- The map `result.clone().map(Async::Ready)` applied to a cached
outcome (lines 73, 96, 162). -/
def readyOf (r : Except (SharedError ε) (SharedItem α)) : PollRes α ε :=
  match r with
  | .ok v => .ready v
  | .error e => .err e

/-- Wrapping of the underlying computation's outcome into result cells, as
done at lines 141 and 144 (`SharedItem::new` / `SharedError::new`).  The
single allocation the protocol ever performs gets tag `0`. -/
def mkOutcome (out : Except ε α) : Except (SharedError ε) (SharedItem α) :=
  match out with
  | .ok v => .ok (SharedItem.new 0 v)
  | .error e => .error (SharedError.new 0 e)

/-- The fields of the inner core that `Shared::store_result` touches:
the fast-path flag, the state cell, and (ghost) the list of task handles
unparked so far, in wake order. -/
structure CoreSt (α ε : Type) where
  flag : Bool
  st : SState α ε
  woken : List Nat
deriving DecidableEq

/-- Model of `Shared::store_result` (shared.rs lines 80-97).  The body
first executes `mem::replace(state, State::Done(result.clone()))` — so the
state cell holds the *new* outcome from this point on — and only then
inspects the previous state.  If it was `Waiting(waiters)`, the flag is
stored `true`, every waiter is unparked, and the result is returned mapped
to ready.  If it was already `Done`, the body panics
("store_result() was called twice"): modelled by a `none` return value,
paired with the memory state at the panic, whose state cell has already
been replaced by the new outcome. -/
def store_result (c : CoreSt α ε) (result : Except (SharedError ε) (SharedItem α)) :
    CoreSt α ε × Option (PollRes α ε) :=
  match c.st with
  | .Waiting waiters =>
      ({ flag := true, st := .Done result, woken := c.woken ++ waiters },
       some (readyOf result))
  | .Done _ =>
      ({ c with st := .Done result }, none)

/-- Program counter of one thread executing `Shared::poll` (lines 106-169),
one constructor per atomic action on the shared inner core.
`idle r` is a thread between calls to `poll`, `r` recording the value the
previous call returned (`none` before the first call).  The pc names
follow the source lines:

* `readRes` — about to run `read_result` after the fast path (line 124);
* `tryLock` — about to run `original_future.try_lock()` (line 129);
* `recheck` — holding the drive lock, about to re-read `result_ready`
  (line 132);
* `readResL` — holding the drive lock, about to run `read_result` and
  release the drive lock on return (line 133);
* `pollF` — holding the drive lock, about to poll the underlying future
  (line 139);
* `doStore` — the underlying future completed; about to take the state
  write lock and run `mem::replace` (line 85);
* `setFlag ws` — about to store `result_ready = true` (line 88), holding
  the state write lock; `ws` are the waiters taken from the old state;
* `unparkW ws` — about to unpark the waiters (lines 89-91);
* `relStateLock` — about to release the state write lock (end of
  `store_result`, line 97);
* `emptySlot` — about to run `*original_future_option = None` (line 153);
* `relDrive` — about to release the drive lock and return (line 154);
* `unlockReg` — the underlying future was not ready: about to release the
  drive lock (end of the `match`, line 158);
* `register` — about to take the state write lock and register as a
  waiter (lines 160-166). -/
inductive PC (α ε : Type) where
  | idle : Option (PollRes α ε) → PC α ε
  | readRes : PC α ε
  | tryLock : PC α ε
  | recheck : PC α ε
  | readResL : PC α ε
  | pollF : PC α ε
  | doStore : PC α ε
  | setFlag : List Nat → PC α ε
  | unparkW : List Nat → PC α ε
  | relStateLock : PC α ε
  | emptySlot : PC α ε
  | relDrive : PC α ε
  | unlockReg : PC α ε
  | register : PC α ε
deriving DecidableEq

/-- Global state of the interleaving machine: every thread's pc plus the
shared inner core.  `slot` is `original_future`: `some n` means the
underlying future is present and has been polled `n` times so far; `none`
means the slot was emptied.  `polls` is the ghost total of polls of the
underlying future across all threads; `woken` is the ghost list of task
handles unparked so far. -/
structure Global (α ε : Type) where
  threads : Nat → PC α ε
  lockHeld : Bool
  slot : Option Nat
  flag : Bool
  st : SState α ε
  writerHeld : Bool
  polls : Nat
  woken : List Nat

/-- Pointwise update of the thread-pc map. -/
def upd (f : Nat → PC α ε) (t : Nat) (p : PC α ε) : Nat → PC α ε :=
  fun u => if u = t then p else f u

@[simp]
theorem upd_self (f : Nat → PC α ε) (t : Nat) (p : PC α ε) : upd f t p t = p := by
  simp [upd]

theorem upd_ne (f : Nat → PC α ε) (t : Nat) (p : PC α ε) {u : Nat} (h : u ≠ t) :
    upd f t p u = f u := by
  simp [upd, h]

/-- Initial state, from `Shared::new` (lines 59-67): the drive slot holds
the never-yet-polled future, the flag is false, the state is
`Waiting(vec![])`, every thread is idle. -/
def initG : Global α ε :=
  { threads := fun _ => .idle none
    lockHeld := false
    slot := some 0
    flag := false
    st := .Waiting []
    writerHeld := false
    polls := 0
    woken := [] }

/-- One atomic action of thread `t` running `Shared::poll` against the
underlying computation that completes on its `K`-th poll with outcome
`out` (the `n`-th poll returns ready exactly when `n = K`, not-ready
otherwise).  Lock acquisitions are guarded on the lock being free; the
state read steps are guarded on the write lock being free (read-lock
acquisition).  Steps whose source line would panic (`read_result` on
`Waiting`, polling an empty slot, `store_result` on `Done`) have no
transition; the invariants below show their guards are always met. -/
inductive Step (K : Nat) (out : Except ε α) : Nat → Global α ε → Global α ε → Prop where
  | fastTrue (t : Nat) (g : Global α ε) (r : Option (PollRes α ε)) :
      g.threads t = .idle r → g.flag = true →
      Step K out t g { g with threads := upd g.threads t .readRes }
  | fastFalse (t : Nat) (g : Global α ε) (r : Option (PollRes α ε)) :
      g.threads t = .idle r → g.flag = false →
      Step K out t g { g with threads := upd g.threads t .tryLock }
  | readResDo (t : Nat) (g : Global α ε) (r : Except (SharedError ε) (SharedItem α)) :
      g.threads t = .readRes → g.writerHeld = false → g.st = .Done r →
      Step K out t g { g with threads := upd g.threads t (.idle (some (readyOf r))) }
  | tryAcq (t : Nat) (g : Global α ε) :
      g.threads t = .tryLock → g.lockHeld = false →
      Step K out t g { g with threads := upd g.threads t .recheck, lockHeld := true }
  | tryFail (t : Nat) (g : Global α ε) :
      g.threads t = .tryLock → g.lockHeld = true →
      Step K out t g { g with threads := upd g.threads t .register }
  | recheckTrue (t : Nat) (g : Global α ε) :
      g.threads t = .recheck → g.flag = true →
      Step K out t g { g with threads := upd g.threads t .readResL }
  | recheckFalse (t : Nat) (g : Global α ε) :
      g.threads t = .recheck → g.flag = false →
      Step K out t g { g with threads := upd g.threads t .pollF }
  | readResLDo (t : Nat) (g : Global α ε) (r : Except (SharedError ε) (SharedItem α)) :
      g.threads t = .readResL → g.writerHeld = false → g.st = .Done r →
      Step K out t g { g with threads := upd g.threads t (.idle (some (readyOf r))),
                              lockHeld := false }
  | pollNotReady (t : Nat) (g : Global α ε) (n : Nat) :
      g.threads t = .pollF → g.slot = some n → n + 1 ≠ K →
      Step K out t g { g with threads := upd g.threads t .unlockReg,
                              slot := some (n + 1), polls := g.polls + 1 }
  | pollReady (t : Nat) (g : Global α ε) (n : Nat) :
      g.threads t = .pollF → g.slot = some n → n + 1 = K →
      Step K out t g { g with threads := upd g.threads t .doStore,
                              slot := some (n + 1), polls := g.polls + 1 }
  | doStoreStep (t : Nat) (g : Global α ε) (ws : List Nat) :
      g.threads t = .doStore → g.writerHeld = false → g.st = .Waiting ws →
      Step K out t g { g with threads := upd g.threads t (.setFlag ws),
                              st := .Done (mkOutcome out), writerHeld := true }
  | setFlagStep (t : Nat) (g : Global α ε) (ws : List Nat) :
      g.threads t = .setFlag ws →
      Step K out t g { g with threads := upd g.threads t (.unparkW ws), flag := true }
  | unparkStep (t : Nat) (g : Global α ε) (ws : List Nat) :
      g.threads t = .unparkW ws →
      Step K out t g { g with threads := upd g.threads t .relStateLock,
                              woken := g.woken ++ ws }
  | relStateLockStep (t : Nat) (g : Global α ε) :
      g.threads t = .relStateLock →
      Step K out t g { g with threads := upd g.threads t .emptySlot, writerHeld := false }
  | emptySlotStep (t : Nat) (g : Global α ε) :
      g.threads t = .emptySlot →
      Step K out t g { g with threads := upd g.threads t .relDrive, slot := none }
  | relDriveStep (t : Nat) (g : Global α ε) :
      g.threads t = .relDrive →
      Step K out t g { g with threads := upd g.threads t
                                (.idle (some (readyOf (mkOutcome out)))),
                              lockHeld := false }
  | unlockRegStep (t : Nat) (g : Global α ε) :
      g.threads t = .unlockReg →
      Step K out t g { g with threads := upd g.threads t .register, lockHeld := false }
  | registerDone (t : Nat) (g : Global α ε) (r : Except (SharedError ε) (SharedItem α)) :
      g.threads t = .register → g.writerHeld = false → g.st = .Done r →
      Step K out t g { g with threads := upd g.threads t (.idle (some (readyOf r))) }
  | registerWait (t : Nat) (g : Global α ε) (ws : List Nat) :
      g.threads t = .register → g.writerHeld = false → g.st = .Waiting ws →
      Step K out t g { g with threads := upd g.threads t (.idle (some .notReady)),
                              st := .Waiting (ws ++ [t]) }

/-- Reachable global states: arbitrary interleavings of `poll` calls from
arbitrarily many threads, starting from `Shared::new`. -/
inductive Reach (K : Nat) (out : Except ε α) : Global α ε → Prop where
  | init : Reach K out initG
  | step {g g' : Global α ε} {t : Nat} :
      Reach K out g → Step K out t g g' → Reach K out g'

/-- Program counters at which a thread holds the drive lock
(`original_future` try-lock), i.e. everything strictly between a
successful `try_lock()` and the guard drop. -/
def holdsDrive : PC α ε → Bool
  | .recheck | .readResL | .pollF | .doStore | .setFlag _ | .unparkW _
  | .relStateLock | .emptySlot | .relDrive | .unlockReg => true
  | _ => false

/-- Program counters at which a thread holds the `state` write lock
(inside `store_result`, between the `write()` acquisition and the guard
drop at the end of the function). -/
def holdsWriter : PC α ε → Bool
  | .setFlag _ | .unparkW _ | .relStateLock => true
  | _ => false

/-- Program counters strictly after the `mem::replace` in `store_result`. -/
def postStore : PC α ε → Bool
  | .setFlag _ | .unparkW _ | .relStateLock | .emptySlot | .relDrive => true
  | _ => false

/-- Program counters at or after the `mem::replace` in `store_result`. -/
def postStoreD : PC α ε → Bool
  | .doStore | .setFlag _ | .unparkW _ | .relStateLock | .emptySlot | .relDrive => true
  | _ => false

/-- Program counters strictly after the `result_ready.store(true)`. -/
def postFlagPC : PC α ε → Bool
  | .unparkW _ | .relStateLock | .emptySlot | .relDrive => true
  | _ => false

/-- Program counters after the flag store but before the drive slot is
emptied. -/
def midPC : PC α ε → Bool
  | .unparkW _ | .relStateLock | .emptySlot => true
  | _ => false

/-- Program counters between observing `result_ready == false` under the
drive lock and the `result_ready.store(true)`. -/
def preFlagPC : PC α ε → Bool
  | .pollF | .doStore | .setFlag _ => true
  | _ => false

/-- Program counters about to execute `read_result`. -/
def readPC : PC α ε → Bool
  | .readRes | .readResL => true
  | _ => false

/-- Is the thread at the `mem::replace` point of `store_result`? -/
def isDoStore : PC α ε → Bool
  | .doStore => true
  | _ => false

/-- Is the thread about to poll the underlying future? -/
def isPollF : PC α ε → Bool
  | .pollF => true
  | _ => false

/-- Is the thread about to store `result_ready = true`? -/
def isSetFlag : PC α ε → Bool
  | .setFlag _ => true
  | _ => false

theorem upd_class {C : PC α ε → Bool} {f : Nat → PC α ε} {t : Nat} {p : PC α ε} {u : Nat}
    (hu : C (upd f t p u) = true) : (u = t ∧ C p = true) ∨ (u ≠ t ∧ C (f u) = true) := by
  by_cases h : u = t
  · subst h; rw [upd_self] at hu; exact .inl ⟨rfl, hu⟩
  · rw [upd_ne _ _ _ h] at hu; exact .inr ⟨h, hu⟩

theorem upd_forall {C : PC α ε → Bool} {P : Prop} {f : Nat → PC α ε} {t : Nat} {p : PC α ε}
    (hall : ∀ u, C (f u) = true → P) (hp : C p = true → P) :
    ∀ u, C (upd f t p u) = true → P := by
  intro u hu
  rcases upd_class hu with ⟨_, h⟩ | ⟨_, h⟩
  · exact hp h
  · exact hall u h

theorem upd_exists {C : PC α ε → Bool} {f : Nat → PC α ε} {t : Nat} {p : PC α ε}
    (h : ∃ u, C (f u) = true) (hp : C (f t) = true → C p = true) :
    ∃ u, C (upd f t p u) = true := by
  obtain ⟨u, hu⟩ := h
  by_cases e : u = t
  · subst e; exact ⟨u, by rw [upd_self]; exact hp hu⟩
  · exact ⟨u, by rw [upd_ne _ _ _ e]; exact hu⟩

theorem upd_uniq {C : PC α ε → Bool} {f : Nat → PC α ε} {t : Nat} {p : PC α ε}
    (huniq : ∀ u v, C (f u) = true → C (f v) = true → u = v) (ht : C (f t) = true) :
    ∀ u v, C (upd f t p u) = true → C (upd f t p v) = true → u = v := by
  intro u v hu hv
  rcases upd_class hu with ⟨rfl, _⟩ | ⟨_, hu'⟩
  · rcases upd_class hv with ⟨rfl, _⟩ | ⟨_, hv'⟩
    · rfl
    · exact (huniq v u hv' ht).symm
  · rcases upd_class hv with ⟨rfl, _⟩ | ⟨_, hv'⟩
    · exact huniq u v hu' ht
    · exact huniq u v hu' hv'

theorem upd_uniq_out {C : PC α ε → Bool} {f : Nat → PC α ε} {t : Nat} {p : PC α ε}
    (huniq : ∀ u v, C (f u) = true → C (f v) = true → u = v) (hp : C p = false) :
    ∀ u v, C (upd f t p u) = true → C (upd f t p v) = true → u = v := by
  intro u v hu hv
  rcases upd_class hu with ⟨_, h⟩ | ⟨_, hu'⟩
  · rw [hp] at h; exact Bool.noConfusion h
  · rcases upd_class hv with ⟨_, h⟩ | ⟨_, hv'⟩
    · rw [hp] at h; exact Bool.noConfusion h
    · exact huniq u v hu' hv'

theorem upd_uniq_fresh {C : PC α ε → Bool} {f : Nat → PC α ε} {t : Nat} {p : PC α ε}
    (hnone : ∀ u, C (f u) = false) :
    ∀ u v, C (upd f t p u) = true → C (upd f t p v) = true → u = v := by
  intro u v hu hv
  rcases upd_class hu with ⟨rfl, _⟩ | ⟨_, hu'⟩
  · rcases upd_class hv with ⟨rfl, _⟩ | ⟨_, hv'⟩
    · rfl
    · rw [hnone v] at hv'; exact Bool.noConfusion hv'
  · rw [hnone u] at hu'; exact Bool.noConfusion hu'

/-- The global protocol invariant, closed under `Step` (for `1 ≤ K`) and
true initially.  It pins down the mutual-exclusion discipline of the two
locks, the monotone flag/state relationship, and the ghost poll counter. -/
structure ProtoInv (K : Nat) (out : Except ε α) (g : Global α ε) : Prop where
  uniq : ∀ u v, holdsDrive (g.threads u) = true → holdsDrive (g.threads v) = true → u = v
  lockAt : ∀ u, holdsDrive (g.threads u) = true → g.lockHeld = true
  writerAt : ∀ u, holdsWriter (g.threads u) = true → g.writerHeld = true
  flagDone : g.flag = true → ∃ r, g.st = .Done r
  postDone : ∀ u, postStore (g.threads u) = true → ∃ r, g.st = .Done r
  postFlag : ∀ u, postFlagPC (g.threads u) = true → g.flag = true
  slotPolls : ∀ n, g.slot = some n → g.polls = n
  slotNoneFlag : g.slot = none → g.flag = true
  readFlag : ∀ u, readPC (g.threads u) = true → g.flag = true
  flagSlot : g.flag = true → g.slot ≠ none → ∃ u, midPC (g.threads u) = true
  doStoreWaiting : ∀ u, isDoStore (g.threads u) = true → ∃ ws, g.st = .Waiting ws
  pollLt : ∀ u, isPollF (g.threads u) = true → g.polls < K
  waitBound : ∀ ws, g.st = .Waiting ws → g.polls < K ∨ ∃ u, isDoStore (g.threads u) = true
  donePolls : ∀ r, g.st = .Done r → g.polls = K
  postPolls : ∀ u, postStoreD (g.threads u) = true → g.polls = K
  preFlagFalse : ∀ u, preFlagPC (g.threads u) = true → g.flag = false
  doneNoSetter : ∀ r, g.st = .Done r → g.flag = false → ∃ u, isSetFlag (g.threads u) = true
  pollsLe : g.polls ≤ K
  doneOutcome : ∀ r, g.st = .Done r → r = mkOutcome out

theorem inv_init {K : Nat} {out : Except ε α} (hK : 1 ≤ K) :
    ProtoInv K out (initG : Global α ε) := by
  refine
    { uniq := ?_, lockAt := ?_, writerAt := ?_, flagDone := ?_, postDone := ?_,
      postFlag := ?_, slotPolls := ?_, slotNoneFlag := ?_, readFlag := ?_,
      flagSlot := ?_, doStoreWaiting := ?_, pollLt := ?_, waitBound := ?_,
      donePolls := ?_, postPolls := ?_, preFlagFalse := ?_, doneNoSetter := ?_,
      pollsLe := ?_, doneOutcome := ?_ }
  all_goals
    simp_all [initG, holdsDrive, holdsWriter, postStore, postStoreD, postFlagPC, midPC,
      preFlagPC, readPC, isDoStore, isPollF, isSetFlag]
  omega

theorem drive_of_setFlag {p : PC α ε} (h : isSetFlag p = true) : holdsDrive p = true := by
  cases p <;> first | rfl | exact nomatch h

theorem drive_of_doStore {p : PC α ε} (h : isDoStore p = true) : holdsDrive p = true := by
  cases p <;> first | rfl | exact nomatch h

theorem drive_of_pollF {p : PC α ε} (h : isPollF p = true) : holdsDrive p = true := by
  cases p <;> first | rfl | exact nomatch h

theorem drive_of_writer {p : PC α ε} (h : holdsWriter p = true) : holdsDrive p = true := by
  cases p <;> first | rfl | exact nomatch h

theorem drive_of_postStoreD {p : PC α ε} (h : postStoreD p = true) : holdsDrive p = true := by
  cases p <;> first | rfl | exact nomatch h

theorem drive_of_preFlag {p : PC α ε} (h : preFlagPC p = true) : holdsDrive p = true := by
  cases p <;> first | rfl | exact nomatch h

theorem drive_of_mid {p : PC α ε} (h : midPC p = true) : holdsDrive p = true := by
  cases p <;> first | rfl | exact nomatch h

theorem upd_forall_uniq {C : PC α ε → Bool} {f : Nat → PC α ε} {t : Nat} {p : PC α ε} {P : Prop}
    (huniq : ∀ u v, holdsDrive (f u) = true → holdsDrive (f v) = true → u = v)
    (hconv : ∀ q, C q = true → holdsDrive q = true)
    (ht : holdsDrive (f t) = true) (hp : C p = false) :
    ∀ u, C (upd f t p u) = true → P := by
  intro u hu
  rcases upd_class hu with ⟨_, hP⟩ | ⟨hne, hu'⟩
  · rw [hp] at hP; exact Bool.noConfusion hP
  · exact absurd (huniq u t (hconv _ hu') ht) hne

/-- Every step of the protocol preserves the invariant. -/
theorem inv_step {K : Nat} {out : Except ε α} {t : Nat} {g g' : Global α ε}
    (h : ProtoInv K out g) (hs : Step K out t g g') : ProtoInv K out g' := by
  cases hs with
  | fastTrue r hpc hflag =>
      exact
        { uniq := upd_uniq_out h.uniq rfl
          lockAt := upd_forall h.lockAt (fun hP => nomatch hP)
          writerAt := upd_forall h.writerAt (fun hP => nomatch hP)
          flagDone := h.flagDone
          postDone := upd_forall h.postDone (fun hP => nomatch hP)
          postFlag := upd_forall h.postFlag (fun hP => nomatch hP)
          slotPolls := h.slotPolls
          slotNoneFlag := h.slotNoneFlag
          readFlag := upd_forall h.readFlag (fun _ => hflag)
          flagSlot := fun hf hsl => upd_exists (h.flagSlot hf hsl)
            (fun hmem => by rw [hpc] at hmem; exact nomatch hmem)
          doStoreWaiting := upd_forall h.doStoreWaiting (fun hP => nomatch hP)
          pollLt := upd_forall h.pollLt (fun hP => nomatch hP)
          waitBound := fun ws hws => (h.waitBound ws hws).imp id
            (fun hex => upd_exists hex (fun hmem => by rw [hpc] at hmem; exact nomatch hmem))
          donePolls := h.donePolls
          postPolls := upd_forall h.postPolls (fun hP => nomatch hP)
          preFlagFalse := upd_forall h.preFlagFalse (fun hP => nomatch hP)
          doneNoSetter := fun r' hr hf => upd_exists (h.doneNoSetter r' hr hf)
            (fun hmem => by rw [hpc] at hmem; exact nomatch hmem)
          pollsLe := h.pollsLe
          doneOutcome := h.doneOutcome }
  | fastFalse r hpc hflag =>
      exact
        { uniq := upd_uniq_out h.uniq rfl
          lockAt := upd_forall h.lockAt (fun hP => nomatch hP)
          writerAt := upd_forall h.writerAt (fun hP => nomatch hP)
          flagDone := h.flagDone
          postDone := upd_forall h.postDone (fun hP => nomatch hP)
          postFlag := upd_forall h.postFlag (fun hP => nomatch hP)
          slotPolls := h.slotPolls
          slotNoneFlag := h.slotNoneFlag
          readFlag := upd_forall h.readFlag (fun hP => nomatch hP)
          flagSlot := fun hf hsl => upd_exists (h.flagSlot hf hsl)
            (fun hmem => by rw [hpc] at hmem; exact nomatch hmem)
          doStoreWaiting := upd_forall h.doStoreWaiting (fun hP => nomatch hP)
          pollLt := upd_forall h.pollLt (fun hP => nomatch hP)
          waitBound := fun ws hws => (h.waitBound ws hws).imp id
            (fun hex => upd_exists hex (fun hmem => by rw [hpc] at hmem; exact nomatch hmem))
          donePolls := h.donePolls
          postPolls := upd_forall h.postPolls (fun hP => nomatch hP)
          preFlagFalse := upd_forall h.preFlagFalse (fun hP => nomatch hP)
          doneNoSetter := fun r' hr hf => upd_exists (h.doneNoSetter r' hr hf)
            (fun hmem => by rw [hpc] at hmem; exact nomatch hmem)
          pollsLe := h.pollsLe
          doneOutcome := h.doneOutcome }
  | readResDo r hpc hw hst =>
      exact
        { uniq := upd_uniq_out h.uniq rfl
          lockAt := upd_forall h.lockAt (fun hP => nomatch hP)
          writerAt := upd_forall h.writerAt (fun hP => nomatch hP)
          flagDone := h.flagDone
          postDone := upd_forall h.postDone (fun hP => nomatch hP)
          postFlag := upd_forall h.postFlag (fun hP => nomatch hP)
          slotPolls := h.slotPolls
          slotNoneFlag := h.slotNoneFlag
          readFlag := upd_forall h.readFlag (fun hP => nomatch hP)
          flagSlot := fun hf hsl => upd_exists (h.flagSlot hf hsl)
            (fun hmem => by rw [hpc] at hmem; exact nomatch hmem)
          doStoreWaiting := upd_forall h.doStoreWaiting (fun hP => nomatch hP)
          pollLt := upd_forall h.pollLt (fun hP => nomatch hP)
          waitBound := fun ws hws => (h.waitBound ws hws).imp id
            (fun hex => upd_exists hex (fun hmem => by rw [hpc] at hmem; exact nomatch hmem))
          donePolls := h.donePolls
          postPolls := upd_forall h.postPolls (fun hP => nomatch hP)
          preFlagFalse := upd_forall h.preFlagFalse (fun hP => nomatch hP)
          doneNoSetter := fun r' hr hf => upd_exists (h.doneNoSetter r' hr hf)
            (fun hmem => by rw [hpc] at hmem; exact nomatch hmem)
          pollsLe := h.pollsLe
          doneOutcome := h.doneOutcome }
  | tryAcq hpc hlock =>
      have hnone : ∀ u, holdsDrive (g.threads u) = false := by
        intro u
        cases hc : holdsDrive (g.threads u)
        · rfl
        · rw [h.lockAt u hc] at hlock; exact nomatch hlock
      exact
        { uniq := upd_uniq_fresh hnone
          lockAt := fun _ _ => rfl
          writerAt := upd_forall h.writerAt (fun hP => nomatch hP)
          flagDone := h.flagDone
          postDone := upd_forall h.postDone (fun hP => nomatch hP)
          postFlag := upd_forall h.postFlag (fun hP => nomatch hP)
          slotPolls := h.slotPolls
          slotNoneFlag := h.slotNoneFlag
          readFlag := upd_forall h.readFlag (fun hP => nomatch hP)
          flagSlot := fun hf hsl => upd_exists (h.flagSlot hf hsl)
            (fun hmem => by rw [hpc] at hmem; exact nomatch hmem)
          doStoreWaiting := upd_forall h.doStoreWaiting (fun hP => nomatch hP)
          pollLt := upd_forall h.pollLt (fun hP => nomatch hP)
          waitBound := fun ws hws => (h.waitBound ws hws).imp id
            (fun hex => upd_exists hex (fun hmem => by rw [hpc] at hmem; exact nomatch hmem))
          donePolls := h.donePolls
          postPolls := upd_forall h.postPolls (fun hP => nomatch hP)
          preFlagFalse := upd_forall h.preFlagFalse (fun hP => nomatch hP)
          doneNoSetter := fun r' hr hf => upd_exists (h.doneNoSetter r' hr hf)
            (fun hmem => by rw [hpc] at hmem; exact nomatch hmem)
          pollsLe := h.pollsLe
          doneOutcome := h.doneOutcome }
  | tryFail hpc hlock =>
      exact
        { uniq := upd_uniq_out h.uniq rfl
          lockAt := upd_forall h.lockAt (fun hP => nomatch hP)
          writerAt := upd_forall h.writerAt (fun hP => nomatch hP)
          flagDone := h.flagDone
          postDone := upd_forall h.postDone (fun hP => nomatch hP)
          postFlag := upd_forall h.postFlag (fun hP => nomatch hP)
          slotPolls := h.slotPolls
          slotNoneFlag := h.slotNoneFlag
          readFlag := upd_forall h.readFlag (fun hP => nomatch hP)
          flagSlot := fun hf hsl => upd_exists (h.flagSlot hf hsl)
            (fun hmem => by rw [hpc] at hmem; exact nomatch hmem)
          doStoreWaiting := upd_forall h.doStoreWaiting (fun hP => nomatch hP)
          pollLt := upd_forall h.pollLt (fun hP => nomatch hP)
          waitBound := fun ws hws => (h.waitBound ws hws).imp id
            (fun hex => upd_exists hex (fun hmem => by rw [hpc] at hmem; exact nomatch hmem))
          donePolls := h.donePolls
          postPolls := upd_forall h.postPolls (fun hP => nomatch hP)
          preFlagFalse := upd_forall h.preFlagFalse (fun hP => nomatch hP)
          doneNoSetter := fun r' hr hf => upd_exists (h.doneNoSetter r' hr hf)
            (fun hmem => by rw [hpc] at hmem; exact nomatch hmem)
          pollsLe := h.pollsLe
          doneOutcome := h.doneOutcome }
  | recheckTrue hpc hflag =>
      have hmemD : holdsDrive (g.threads t) = true := by rw [hpc]; rfl
      exact
        { uniq := upd_uniq h.uniq hmemD
          lockAt := upd_forall h.lockAt (fun _ => h.lockAt t hmemD)
          writerAt := upd_forall h.writerAt (fun hP => nomatch hP)
          flagDone := h.flagDone
          postDone := upd_forall h.postDone (fun hP => nomatch hP)
          postFlag := upd_forall h.postFlag (fun hP => nomatch hP)
          slotPolls := h.slotPolls
          slotNoneFlag := h.slotNoneFlag
          readFlag := upd_forall h.readFlag (fun _ => hflag)
          flagSlot := fun hf hsl => upd_exists (h.flagSlot hf hsl)
            (fun hmem => by rw [hpc] at hmem; exact nomatch hmem)
          doStoreWaiting := upd_forall h.doStoreWaiting (fun hP => nomatch hP)
          pollLt := upd_forall h.pollLt (fun hP => nomatch hP)
          waitBound := fun ws hws => (h.waitBound ws hws).imp id
            (fun hex => upd_exists hex (fun hmem => by rw [hpc] at hmem; exact nomatch hmem))
          donePolls := h.donePolls
          postPolls := upd_forall h.postPolls (fun hP => nomatch hP)
          preFlagFalse := upd_forall h.preFlagFalse (fun hP => nomatch hP)
          doneNoSetter := fun r' hr hf => upd_exists (h.doneNoSetter r' hr hf)
            (fun hmem => by rw [hpc] at hmem; exact nomatch hmem)
          pollsLe := h.pollsLe
          doneOutcome := h.doneOutcome }
  | recheckFalse hpc hflag =>
      have hmemD : holdsDrive (g.threads t) = true := by rw [hpc]; rfl
      have hnotDone : ∀ r, ¬ g.st = SState.Done r := by
        intro r hr
        obtain ⟨u, hu⟩ := h.doneNoSetter r hr hflag
        have he := h.uniq u t (drive_of_setFlag hu) hmemD
        rw [he, hpc] at hu
        exact nomatch hu
      have hplt : g.polls < K := by
        cases hst : g.st with
        | Waiting ws =>
            rcases h.waitBound ws hst with hlt | ⟨u, hu⟩
            · exact hlt
            · have he := h.uniq u t (drive_of_doStore hu) hmemD
              rw [he, hpc] at hu
              exact nomatch hu
        | Done r => exact absurd hst (hnotDone r)
      exact
        { uniq := upd_uniq h.uniq hmemD
          lockAt := upd_forall h.lockAt (fun _ => h.lockAt t hmemD)
          writerAt := upd_forall h.writerAt (fun hP => nomatch hP)
          flagDone := h.flagDone
          postDone := upd_forall h.postDone (fun hP => nomatch hP)
          postFlag := upd_forall h.postFlag (fun hP => nomatch hP)
          slotPolls := h.slotPolls
          slotNoneFlag := h.slotNoneFlag
          readFlag := upd_forall h.readFlag (fun hP => nomatch hP)
          flagSlot := fun hf _ => nomatch (hflag.symm.trans hf)
          doStoreWaiting := upd_forall h.doStoreWaiting (fun hP => nomatch hP)
          pollLt := upd_forall h.pollLt (fun _ => hplt)
          waitBound := fun _ _ => Or.inl hplt
          donePolls := h.donePolls
          postPolls := upd_forall h.postPolls (fun hP => nomatch hP)
          preFlagFalse := upd_forall h.preFlagFalse (fun _ => hflag)
          doneNoSetter := fun r' hr _ => absurd hr (hnotDone r')
          pollsLe := h.pollsLe
          doneOutcome := h.doneOutcome }
  | readResLDo r hpc hw hst =>
      have hmemD : holdsDrive (g.threads t) = true := by rw [hpc]; rfl
      exact
        { uniq := upd_uniq_out h.uniq rfl
          lockAt := fun u hu => by
            rcases upd_class hu with ⟨_, hP⟩ | ⟨hne, hu'⟩
            · exact nomatch hP
            · exact absurd (h.uniq u t hu' hmemD) hne
          writerAt := upd_forall h.writerAt (fun hP => nomatch hP)
          flagDone := h.flagDone
          postDone := upd_forall h.postDone (fun hP => nomatch hP)
          postFlag := upd_forall h.postFlag (fun hP => nomatch hP)
          slotPolls := h.slotPolls
          slotNoneFlag := h.slotNoneFlag
          readFlag := upd_forall h.readFlag (fun hP => nomatch hP)
          flagSlot := fun hf hsl => upd_exists (h.flagSlot hf hsl)
            (fun hmem => by rw [hpc] at hmem; exact nomatch hmem)
          doStoreWaiting := upd_forall h.doStoreWaiting (fun hP => nomatch hP)
          pollLt := upd_forall h.pollLt (fun hP => nomatch hP)
          waitBound := fun ws hws => (h.waitBound ws hws).imp id
            (fun hex => upd_exists hex (fun hmem => by rw [hpc] at hmem; exact nomatch hmem))
          donePolls := h.donePolls
          postPolls := upd_forall h.postPolls (fun hP => nomatch hP)
          preFlagFalse := upd_forall h.preFlagFalse (fun hP => nomatch hP)
          doneNoSetter := fun r' hr hf => upd_exists (h.doneNoSetter r' hr hf)
            (fun hmem => by rw [hpc] at hmem; exact nomatch hmem)
          pollsLe := h.pollsLe
          doneOutcome := h.doneOutcome }
  | pollNotReady n hpc hslot hne =>
      have hmemD : holdsDrive (g.threads t) = true := by rw [hpc]; rfl
      have hflagF : g.flag = false := h.preFlagFalse t (by rw [hpc]; rfl)
      have hpn : g.polls = n := h.slotPolls n hslot
      have hplt : g.polls < K := h.pollLt t (by rw [hpc]; rfl)
      have hnotDone : ∀ r, ¬ g.st = SState.Done r := by
        intro r hr
        obtain ⟨u, hu⟩ := h.doneNoSetter r hr hflagF
        have he := h.uniq u t (drive_of_setFlag hu) hmemD
        rw [he, hpc] at hu
        exact nomatch hu
      exact
        { uniq := upd_uniq h.uniq hmemD
          lockAt := upd_forall h.lockAt (fun _ => h.lockAt t hmemD)
          writerAt := upd_forall h.writerAt (fun hP => nomatch hP)
          flagDone := fun hf => nomatch (hflagF.symm.trans hf)
          postDone := upd_forall h.postDone (fun hP => nomatch hP)
          postFlag := upd_forall h.postFlag (fun hP => nomatch hP)
          slotPolls := fun m hm => by
            have hm2 : some (n + 1) = some m := hm
            injection hm2 with hm3
            show g.polls + 1 = m
            omega
          slotNoneFlag := fun hnone => nomatch hnone
          readFlag := upd_forall h.readFlag (fun hP => nomatch hP)
          flagSlot := fun hf _ => nomatch (hflagF.symm.trans hf)
          doStoreWaiting := upd_forall h.doStoreWaiting (fun hP => nomatch hP)
          pollLt := upd_forall (fun _ _ => show g.polls + 1 < K by omega) (fun hP => nomatch hP)
          waitBound := fun _ _ => Or.inl (show g.polls + 1 < K by omega)
          donePolls := fun r' hr => absurd hr (hnotDone r')
          postPolls := upd_forall_uniq h.uniq (fun _ hq => drive_of_postStoreD hq) hmemD rfl
          preFlagFalse := upd_forall h.preFlagFalse (fun hP => nomatch hP)
          doneNoSetter := fun r' hr _ => absurd hr (hnotDone r')
          pollsLe := show g.polls + 1 ≤ K by omega
          doneOutcome := h.doneOutcome }
  | pollReady n hpc hslot heq =>
      have hmemD : holdsDrive (g.threads t) = true := by rw [hpc]; rfl
      have hflagF : g.flag = false := h.preFlagFalse t (by rw [hpc]; rfl)
      have hpn : g.polls = n := h.slotPolls n hslot
      have hnotDone : ∀ r, ¬ g.st = SState.Done r := by
        intro r hr
        obtain ⟨u, hu⟩ := h.doneNoSetter r hr hflagF
        have he := h.uniq u t (drive_of_setFlag hu) hmemD
        rw [he, hpc] at hu
        exact nomatch hu
      have hwait : ∃ ws, g.st = SState.Waiting ws := by
        cases hst : g.st with
        | Waiting ws => exact ⟨ws, rfl⟩
        | Done r => exact absurd hst (hnotDone r)
      exact
        { uniq := upd_uniq h.uniq hmemD
          lockAt := upd_forall h.lockAt (fun _ => h.lockAt t hmemD)
          writerAt := upd_forall h.writerAt (fun hP => nomatch hP)
          flagDone := fun hf => nomatch (hflagF.symm.trans hf)
          postDone := upd_forall h.postDone (fun hP => nomatch hP)
          postFlag := upd_forall h.postFlag (fun hP => nomatch hP)
          slotPolls := fun m hm => by
            have hm2 : some (n + 1) = some m := hm
            injection hm2 with hm3
            show g.polls + 1 = m
            omega
          slotNoneFlag := fun hnone => nomatch hnone
          readFlag := upd_forall h.readFlag (fun hP => nomatch hP)
          flagSlot := fun hf _ => nomatch (hflagF.symm.trans hf)
          doStoreWaiting := fun _ _ => hwait
          pollLt := upd_forall_uniq h.uniq (fun _ hq => drive_of_pollF hq) hmemD rfl
          waitBound := fun _ _ => Or.inr ⟨t, by simp [upd, isDoStore]⟩
          donePolls := fun r' hr => absurd hr (hnotDone r')
          postPolls := fun u hu => by
            rcases upd_class hu with ⟨_, _⟩ | ⟨hne', hu'⟩
            · show g.polls + 1 = K
              omega
            · exact absurd (h.uniq u t (drive_of_postStoreD hu') hmemD) hne'
          preFlagFalse := upd_forall h.preFlagFalse (fun _ => hflagF)
          doneNoSetter := fun r' hr _ => absurd hr (hnotDone r')
          pollsLe := show g.polls + 1 ≤ K by omega
          doneOutcome := h.doneOutcome }
  | doStoreStep ws hpc hw hst =>
      have hmemD : holdsDrive (g.threads t) = true := by rw [hpc]; rfl
      have hflagF : g.flag = false := h.preFlagFalse t (by rw [hpc]; rfl)
      have hpK : g.polls = K := h.postPolls t (by rw [hpc]; rfl)
      exact
        { uniq := upd_uniq h.uniq hmemD
          lockAt := upd_forall h.lockAt (fun _ => h.lockAt t hmemD)
          writerAt := fun _ _ => rfl
          flagDone := fun _ => ⟨mkOutcome out, rfl⟩
          postDone := fun _ _ => ⟨mkOutcome out, rfl⟩
          postFlag := upd_forall h.postFlag (fun hP => nomatch hP)
          slotPolls := h.slotPolls
          slotNoneFlag := h.slotNoneFlag
          readFlag := upd_forall h.readFlag (fun hP => nomatch hP)
          flagSlot := fun hf _ => nomatch (hflagF.symm.trans hf)
          doStoreWaiting := upd_forall_uniq h.uniq (fun _ hq => drive_of_doStore hq) hmemD rfl
          pollLt := upd_forall_uniq h.uniq (fun _ hq => drive_of_pollF hq) hmemD rfl
          waitBound := fun _ hws' => nomatch hws'
          donePolls := fun _ _ => hpK
          postPolls := upd_forall h.postPolls (fun _ => hpK)
          preFlagFalse := upd_forall h.preFlagFalse (fun _ => hflagF)
          doneNoSetter := fun _ _ _ => ⟨t, by simp [upd, isSetFlag]⟩
          pollsLe := h.pollsLe
          doneOutcome := fun r' hr => by
            have hr2 : SState.Done (mkOutcome out) = SState.Done r' := hr
            injection hr2 with h'
            exact h'.symm }
  | setFlagStep ws hpc =>
      have hmemD : holdsDrive (g.threads t) = true := by rw [hpc]; rfl
      have hDone : ∃ r, g.st = SState.Done r := h.postDone t (by rw [hpc]; rfl)
      have hpK : g.polls = K := h.postPolls t (by rw [hpc]; rfl)
      have hWr : g.writerHeld = true := h.writerAt t (by rw [hpc]; rfl)
      exact
        { uniq := upd_uniq h.uniq hmemD
          lockAt := upd_forall h.lockAt (fun _ => h.lockAt t hmemD)
          writerAt := upd_forall h.writerAt (fun _ => hWr)
          flagDone := fun _ => hDone
          postDone := upd_forall h.postDone (fun _ => hDone)
          postFlag := fun _ _ => rfl
          slotPolls := h.slotPolls
          slotNoneFlag := fun _ => rfl
          readFlag := fun _ _ => rfl
          flagSlot := fun _ _ => ⟨t, by simp [upd, midPC]⟩
          doStoreWaiting := upd_forall_uniq h.uniq (fun _ hq => drive_of_doStore hq) hmemD rfl
          pollLt := upd_forall_uniq h.uniq (fun _ hq => drive_of_pollF hq) hmemD rfl
          waitBound := fun ws' hws' => by
            obtain ⟨r, hr⟩ := hDone
            have hws2 : g.st = SState.Waiting ws' := hws'
            rw [hr] at hws2
            exact nomatch hws2
          donePolls := fun _ _ => hpK
          postPolls := upd_forall h.postPolls (fun _ => hpK)
          preFlagFalse := upd_forall_uniq h.uniq (fun _ hq => drive_of_preFlag hq) hmemD rfl
          doneNoSetter := fun _ _ hf => nomatch hf
          pollsLe := h.pollsLe
          doneOutcome := h.doneOutcome }
  | unparkStep ws hpc =>
      have hmemD : holdsDrive (g.threads t) = true := by rw [hpc]; rfl
      have hDone : ∃ r, g.st = SState.Done r := h.postDone t (by rw [hpc]; rfl)
      have hpK : g.polls = K := h.postPolls t (by rw [hpc]; rfl)
      have hWr : g.writerHeld = true := h.writerAt t (by rw [hpc]; rfl)
      have hfT : g.flag = true := h.postFlag t (by rw [hpc]; rfl)
      exact
        { uniq := upd_uniq h.uniq hmemD
          lockAt := upd_forall h.lockAt (fun _ => h.lockAt t hmemD)
          writerAt := upd_forall h.writerAt (fun _ => hWr)
          flagDone := fun _ => hDone
          postDone := upd_forall h.postDone (fun _ => hDone)
          postFlag := upd_forall h.postFlag (fun _ => hfT)
          slotPolls := h.slotPolls
          slotNoneFlag := h.slotNoneFlag
          readFlag := upd_forall h.readFlag (fun hP => nomatch hP)
          flagSlot := fun _ _ => ⟨t, by simp [upd, midPC]⟩
          doStoreWaiting := upd_forall_uniq h.uniq (fun _ hq => drive_of_doStore hq) hmemD rfl
          pollLt := upd_forall_uniq h.uniq (fun _ hq => drive_of_pollF hq) hmemD rfl
          waitBound := fun ws' hws' => by
            obtain ⟨r, hr⟩ := hDone
            have hws2 : g.st = SState.Waiting ws' := hws'
            rw [hr] at hws2
            exact nomatch hws2
          donePolls := fun _ _ => hpK
          postPolls := upd_forall h.postPolls (fun _ => hpK)
          preFlagFalse := upd_forall_uniq h.uniq (fun _ hq => drive_of_preFlag hq) hmemD rfl
          doneNoSetter := fun _ _ hf => nomatch (hfT.symm.trans hf)
          pollsLe := h.pollsLe
          doneOutcome := h.doneOutcome }
  | relStateLockStep hpc =>
      have hmemD : holdsDrive (g.threads t) = true := by rw [hpc]; rfl
      have hDone : ∃ r, g.st = SState.Done r := h.postDone t (by rw [hpc]; rfl)
      have hpK : g.polls = K := h.postPolls t (by rw [hpc]; rfl)
      have hfT : g.flag = true := h.postFlag t (by rw [hpc]; rfl)
      exact
        { uniq := upd_uniq h.uniq hmemD
          lockAt := upd_forall h.lockAt (fun _ => h.lockAt t hmemD)
          writerAt := upd_forall_uniq h.uniq (fun _ hq => drive_of_writer hq) hmemD rfl
          flagDone := fun _ => hDone
          postDone := upd_forall h.postDone (fun _ => hDone)
          postFlag := upd_forall h.postFlag (fun _ => hfT)
          slotPolls := h.slotPolls
          slotNoneFlag := h.slotNoneFlag
          readFlag := upd_forall h.readFlag (fun hP => nomatch hP)
          flagSlot := fun _ _ => ⟨t, by simp [upd, midPC]⟩
          doStoreWaiting := upd_forall_uniq h.uniq (fun _ hq => drive_of_doStore hq) hmemD rfl
          pollLt := upd_forall_uniq h.uniq (fun _ hq => drive_of_pollF hq) hmemD rfl
          waitBound := fun ws' hws' => by
            obtain ⟨r, hr⟩ := hDone
            have hws2 : g.st = SState.Waiting ws' := hws'
            rw [hr] at hws2
            exact nomatch hws2
          donePolls := fun _ _ => hpK
          postPolls := upd_forall h.postPolls (fun _ => hpK)
          preFlagFalse := upd_forall_uniq h.uniq (fun _ hq => drive_of_preFlag hq) hmemD rfl
          doneNoSetter := fun _ _ hf => nomatch (hfT.symm.trans hf)
          pollsLe := h.pollsLe
          doneOutcome := h.doneOutcome }
  | emptySlotStep hpc =>
      have hmemD : holdsDrive (g.threads t) = true := by rw [hpc]; rfl
      have hDone : ∃ r, g.st = SState.Done r := h.postDone t (by rw [hpc]; rfl)
      have hpK : g.polls = K := h.postPolls t (by rw [hpc]; rfl)
      have hfT : g.flag = true := h.postFlag t (by rw [hpc]; rfl)
      exact
        { uniq := upd_uniq h.uniq hmemD
          lockAt := upd_forall h.lockAt (fun _ => h.lockAt t hmemD)
          writerAt := upd_forall h.writerAt (fun hP => nomatch hP)
          flagDone := fun _ => hDone
          postDone := upd_forall h.postDone (fun _ => hDone)
          postFlag := upd_forall h.postFlag (fun _ => hfT)
          slotPolls := fun m hm => nomatch hm
          slotNoneFlag := fun _ => hfT
          readFlag := upd_forall h.readFlag (fun hP => nomatch hP)
          flagSlot := fun _ hsl => absurd rfl hsl
          doStoreWaiting := upd_forall_uniq h.uniq (fun _ hq => drive_of_doStore hq) hmemD rfl
          pollLt := upd_forall_uniq h.uniq (fun _ hq => drive_of_pollF hq) hmemD rfl
          waitBound := fun ws' hws' => by
            obtain ⟨r, hr⟩ := hDone
            have hws2 : g.st = SState.Waiting ws' := hws'
            rw [hr] at hws2
            exact nomatch hws2
          donePolls := fun _ _ => hpK
          postPolls := upd_forall h.postPolls (fun _ => hpK)
          preFlagFalse := upd_forall_uniq h.uniq (fun _ hq => drive_of_preFlag hq) hmemD rfl
          doneNoSetter := fun _ _ hf => nomatch (hfT.symm.trans hf)
          pollsLe := h.pollsLe
          doneOutcome := h.doneOutcome }
  | relDriveStep hpc =>
      have hmemD : holdsDrive (g.threads t) = true := by rw [hpc]; rfl
      have hDone : ∃ r, g.st = SState.Done r := h.postDone t (by rw [hpc]; rfl)
      have hpK : g.polls = K := h.postPolls t (by rw [hpc]; rfl)
      have hfT : g.flag = true := h.postFlag t (by rw [hpc]; rfl)
      exact
        { uniq := upd_uniq_out h.uniq rfl
          lockAt := fun u hu => by
            rcases upd_class hu with ⟨_, hP⟩ | ⟨hne, hu'⟩
            · exact nomatch hP
            · exact absurd (h.uniq u t hu' hmemD) hne
          writerAt := upd_forall h.writerAt (fun hP => nomatch hP)
          flagDone := fun _ => hDone
          postDone := upd_forall h.postDone (fun hP => nomatch hP)
          postFlag := upd_forall h.postFlag (fun hP => nomatch hP)
          slotPolls := h.slotPolls
          slotNoneFlag := h.slotNoneFlag
          readFlag := upd_forall h.readFlag (fun hP => nomatch hP)
          flagSlot := fun hf hsl => upd_exists (h.flagSlot hf hsl)
            (fun hmem => by rw [hpc] at hmem; exact nomatch hmem)
          doStoreWaiting := upd_forall_uniq h.uniq (fun _ hq => drive_of_doStore hq) hmemD rfl
          pollLt := upd_forall_uniq h.uniq (fun _ hq => drive_of_pollF hq) hmemD rfl
          waitBound := fun ws' hws' => by
            obtain ⟨r, hr⟩ := hDone
            have hws2 : g.st = SState.Waiting ws' := hws'
            rw [hr] at hws2
            exact nomatch hws2
          donePolls := fun _ _ => hpK
          postPolls := upd_forall h.postPolls (fun hP => nomatch hP)
          preFlagFalse := upd_forall_uniq h.uniq (fun _ hq => drive_of_preFlag hq) hmemD rfl
          doneNoSetter := fun _ _ hf => nomatch (hfT.symm.trans hf)
          pollsLe := h.pollsLe
          doneOutcome := h.doneOutcome }
  | unlockRegStep hpc =>
      have hmemD : holdsDrive (g.threads t) = true := by rw [hpc]; rfl
      exact
        { uniq := upd_uniq_out h.uniq rfl
          lockAt := fun u hu => by
            rcases upd_class hu with ⟨_, hP⟩ | ⟨hne, hu'⟩
            · exact nomatch hP
            · exact absurd (h.uniq u t hu' hmemD) hne
          writerAt := upd_forall h.writerAt (fun hP => nomatch hP)
          flagDone := h.flagDone
          postDone := upd_forall h.postDone (fun hP => nomatch hP)
          postFlag := upd_forall h.postFlag (fun hP => nomatch hP)
          slotPolls := h.slotPolls
          slotNoneFlag := h.slotNoneFlag
          readFlag := upd_forall h.readFlag (fun hP => nomatch hP)
          flagSlot := fun hf hsl => upd_exists (h.flagSlot hf hsl)
            (fun hmem => by rw [hpc] at hmem; exact nomatch hmem)
          doStoreWaiting := upd_forall h.doStoreWaiting (fun hP => nomatch hP)
          pollLt := upd_forall h.pollLt (fun hP => nomatch hP)
          waitBound := fun ws hws => (h.waitBound ws hws).imp id
            (fun hex => upd_exists hex (fun hmem => by rw [hpc] at hmem; exact nomatch hmem))
          donePolls := h.donePolls
          postPolls := upd_forall h.postPolls (fun hP => nomatch hP)
          preFlagFalse := upd_forall h.preFlagFalse (fun hP => nomatch hP)
          doneNoSetter := fun r' hr hf => upd_exists (h.doneNoSetter r' hr hf)
            (fun hmem => by rw [hpc] at hmem; exact nomatch hmem)
          pollsLe := h.pollsLe
          doneOutcome := h.doneOutcome }
  | registerDone r hpc hw hst =>
      exact
        { uniq := upd_uniq_out h.uniq rfl
          lockAt := upd_forall h.lockAt (fun hP => nomatch hP)
          writerAt := upd_forall h.writerAt (fun hP => nomatch hP)
          flagDone := h.flagDone
          postDone := upd_forall h.postDone (fun hP => nomatch hP)
          postFlag := upd_forall h.postFlag (fun hP => nomatch hP)
          slotPolls := h.slotPolls
          slotNoneFlag := h.slotNoneFlag
          readFlag := upd_forall h.readFlag (fun hP => nomatch hP)
          flagSlot := fun hf hsl => upd_exists (h.flagSlot hf hsl)
            (fun hmem => by rw [hpc] at hmem; exact nomatch hmem)
          doStoreWaiting := upd_forall h.doStoreWaiting (fun hP => nomatch hP)
          pollLt := upd_forall h.pollLt (fun hP => nomatch hP)
          waitBound := fun ws hws => (h.waitBound ws hws).imp id
            (fun hex => upd_exists hex (fun hmem => by rw [hpc] at hmem; exact nomatch hmem))
          donePolls := h.donePolls
          postPolls := upd_forall h.postPolls (fun hP => nomatch hP)
          preFlagFalse := upd_forall h.preFlagFalse (fun hP => nomatch hP)
          doneNoSetter := fun r' hr hf => upd_exists (h.doneNoSetter r' hr hf)
            (fun hmem => by rw [hpc] at hmem; exact nomatch hmem)
          pollsLe := h.pollsLe
          doneOutcome := h.doneOutcome }
  | registerWait ws hpc hw hst =>
      have hflagF : g.flag = false := by
        cases hfc : g.flag
        · rfl
        · obtain ⟨r, hr⟩ := h.flagDone hfc
          rw [hst] at hr
          exact nomatch hr
      exact
        { uniq := upd_uniq_out h.uniq rfl
          lockAt := upd_forall h.lockAt (fun hP => nomatch hP)
          writerAt := upd_forall h.writerAt (fun hP => nomatch hP)
          flagDone := fun hf => nomatch (hflagF.symm.trans hf)
          postDone := fun u hu => by
            rcases upd_class hu with ⟨_, hP⟩ | ⟨_, hu'⟩
            · exact nomatch hP
            · obtain ⟨r, hr⟩ := h.postDone u hu'
              rw [hst] at hr
              exact nomatch hr
          postFlag := upd_forall h.postFlag (fun hP => nomatch hP)
          slotPolls := h.slotPolls
          slotNoneFlag := h.slotNoneFlag
          readFlag := upd_forall h.readFlag (fun hP => nomatch hP)
          flagSlot := fun hf _ => nomatch (hflagF.symm.trans hf)
          doStoreWaiting := fun _ _ => ⟨ws ++ [t], rfl⟩
          pollLt := upd_forall h.pollLt (fun hP => nomatch hP)
          waitBound := fun _ _ => (h.waitBound ws hst).imp id
            (fun hex => upd_exists hex (fun hmem => by rw [hpc] at hmem; exact nomatch hmem))
          donePolls := fun r' hr => nomatch hr
          postPolls := upd_forall h.postPolls (fun hP => nomatch hP)
          preFlagFalse := upd_forall h.preFlagFalse (fun hP => nomatch hP)
          doneNoSetter := fun r' hr _ => nomatch hr
          pollsLe := h.pollsLe
          doneOutcome := fun r' hr => nomatch hr }

/-- Invariance under reachability. -/
theorem reach_inv {K : Nat} {out : Except ε α} {g : Global α ε}
    (hK : 1 ≤ K) (h : Reach K out g) : ProtoInv K out g := by
  induction h with
  | init => exact inv_init hK
  | step hr hs ih => exact inv_step ih hs


/-- The fast-path flag is monotone: no step ever resets it. -/
theorem flag_mono {K : Nat} {out : Except ε α} {t : Nat} {g g' : Global α ε}
    (hs : Step K out t g g') (hf : g.flag = true) : g'.flag = true := by
  cases hs with
  | fastTrue r1 hpc hflag => exact hf
  | fastFalse r1 hpc hflag => exact hf
  | readResDo r1 hpc hw hst => exact hf
  | tryAcq hpc hlock => exact hf
  | tryFail hpc hlock => exact hf
  | recheckTrue hpc hflag => exact hf
  | recheckFalse hpc hflag => exact hf
  | readResLDo r1 hpc hw hst => exact hf
  | pollNotReady n1 hpc hslot hne1 => exact hf
  | pollReady n1 hpc hslot heq1 => exact hf
  | doStoreStep ws1 hpc hw hst => exact hf
  | setFlagStep ws1 hpc => rfl
  | unparkStep ws1 hpc => exact hf
  | relStateLockStep hpc => exact hf
  | emptySlotStep hpc => exact hf
  | relDriveStep hpc => exact hf
  | unlockRegStep hpc => exact hf
  | registerDone r1 hpc hw hst => exact hf
  | registerWait ws1 hpc hw hst => exact hf

/-- A `Done` state is permanent, with the identical cached outcome. -/
theorem done_perm {K : Nat} {out : Except ε α} {t : Nat} {g g' : Global α ε}
    {r : Except (SharedError ε) (SharedItem α)}
    (hs : Step K out t g g') (hr : g.st = SState.Done r) : g'.st = SState.Done r := by
  cases hs with
  | fastTrue r1 hpc hflag => exact hr
  | fastFalse r1 hpc hflag => exact hr
  | readResDo r1 hpc hw hst => exact hr
  | tryAcq hpc hlock => exact hr
  | tryFail hpc hlock => exact hr
  | recheckTrue hpc hflag => exact hr
  | recheckFalse hpc hflag => exact hr
  | readResLDo r1 hpc hw hst => exact hr
  | pollNotReady n1 hpc hslot hne1 => exact hr
  | pollReady n1 hpc hslot heq1 => exact hr
  | doStoreStep ws1 hpc hw hst => rw [hst] at hr; exact nomatch hr
  | setFlagStep ws1 hpc => exact hr
  | unparkStep ws1 hpc => exact hr
  | relStateLockStep hpc => exact hr
  | emptySlotStep hpc => exact hr
  | relDriveStep hpc => exact hr
  | unlockRegStep hpc => exact hr
  | registerDone r1 hpc hw hst => exact hr
  | registerWait ws1 hpc hw hst => rw [hst] at hr; exact nomatch hr

/-- Once the state is `Done`, the underlying future is never polled again. -/
theorem polls_frozen {K : Nat} {out : Except ε α} {t : Nat} {g g' : Global α ε}
    {r : Except (SharedError ε) (SharedItem α)}
    (h : ProtoInv K out g) (hs : Step K out t g g') (hr : g.st = SState.Done r) :
    g'.polls = g.polls := by
  cases hs with
  | fastTrue r1 hpc hflag => rfl
  | fastFalse r1 hpc hflag => rfl
  | readResDo r1 hpc hw hst => rfl
  | tryAcq hpc hlock => rfl
  | tryFail hpc hlock => rfl
  | recheckTrue hpc hflag => rfl
  | recheckFalse hpc hflag => rfl
  | readResLDo r1 hpc hw hst => rfl
  | pollNotReady n1 hpc hslot hne1 =>
      have hflagF : g.flag = false := h.preFlagFalse t (by rw [hpc]; rfl)
      obtain ⟨u, hu⟩ := h.doneNoSetter r hr hflagF
      have he := h.uniq u t (drive_of_setFlag hu) (by rw [hpc]; rfl)
      rw [he, hpc] at hu
      exact nomatch hu
  | pollReady n1 hpc hslot heq1 =>
      have hflagF : g.flag = false := h.preFlagFalse t (by rw [hpc]; rfl)
      obtain ⟨u, hu⟩ := h.doneNoSetter r hr hflagF
      have he := h.uniq u t (drive_of_setFlag hu) (by rw [hpc]; rfl)
      rw [he, hpc] at hu
      exact nomatch hu
  | doStoreStep ws1 hpc hw hst => rfl
  | setFlagStep ws1 hpc => rfl
  | unparkStep ws1 hpc => rfl
  | relStateLockStep hpc => rfl
  | emptySlotStep hpc => rfl
  | relDriveStep hpc => rfl
  | unlockRegStep hpc => rfl
  | registerDone r1 hpc hw hst => rfl
  | registerWait ws1 hpc hw hst => rfl
/-- Inversion: the only actions of an idle thread are the two fast-path branches of line 123. -/
theorem step_from_idle {K : Nat} {out : Except ε α} {t : Nat} {g g' : Global α ε}
    {r0 : Option (PollRes α ε)}
    (hpc0 : g.threads t = PC.idle r0) (hs : Step K out t g g') :
    (g.flag = true ∧ g' = { g with threads := upd g.threads t PC.readRes }) ∨
    (g.flag = false ∧ g' = { g with threads := upd g.threads t PC.tryLock }) := by
  cases hs with
  | fastTrue r1 hpc hflag => exact Or.inl ⟨hflag, rfl⟩
  | fastFalse r1 hpc hflag => exact Or.inr ⟨hflag, rfl⟩
  | readResDo r1 hpc hw hst => rw [hpc0] at hpc; exact nomatch hpc
  | tryAcq hpc hlock => rw [hpc0] at hpc; exact nomatch hpc
  | tryFail hpc hlock => rw [hpc0] at hpc; exact nomatch hpc
  | recheckTrue hpc hflag => rw [hpc0] at hpc; exact nomatch hpc
  | recheckFalse hpc hflag => rw [hpc0] at hpc; exact nomatch hpc
  | readResLDo r1 hpc hw hst => rw [hpc0] at hpc; exact nomatch hpc
  | pollNotReady n1 hpc hslot hne1 => rw [hpc0] at hpc; exact nomatch hpc
  | pollReady n1 hpc hslot heq1 => rw [hpc0] at hpc; exact nomatch hpc
  | doStoreStep ws1 hpc hw hst => rw [hpc0] at hpc; exact nomatch hpc
  | setFlagStep ws1 hpc => rw [hpc0] at hpc; exact nomatch hpc
  | unparkStep ws1 hpc => rw [hpc0] at hpc; exact nomatch hpc
  | relStateLockStep hpc => rw [hpc0] at hpc; exact nomatch hpc
  | emptySlotStep hpc => rw [hpc0] at hpc; exact nomatch hpc
  | relDriveStep hpc => rw [hpc0] at hpc; exact nomatch hpc
  | unlockRegStep hpc => rw [hpc0] at hpc; exact nomatch hpc
  | registerDone r1 hpc hw hst => rw [hpc0] at hpc; exact nomatch hpc
  | registerWait ws1 hpc hw hst => rw [hpc0] at hpc; exact nomatch hpc
/-- Inversion: a thread at `read_result` (line 124) reads a `Done` state under a free write lock and returns it mapped to ready. -/
theorem step_from_readRes {K : Nat} {out : Except ε α} {t : Nat} {g g' : Global α ε}
    (hpc0 : g.threads t = PC.readRes) (hs : Step K out t g g') :
    ∃ r, g.st = SState.Done r ∧ g.writerHeld = false ∧
      g' = { g with threads := upd g.threads t (PC.idle (some (readyOf r))) } := by
  cases hs with
  | fastTrue r1 hpc hflag => rw [hpc0] at hpc; exact nomatch hpc
  | fastFalse r1 hpc hflag => rw [hpc0] at hpc; exact nomatch hpc
  | readResDo r1 hpc hw hst => exact ⟨r1, hst, hw, rfl⟩
  | tryAcq hpc hlock => rw [hpc0] at hpc; exact nomatch hpc
  | tryFail hpc hlock => rw [hpc0] at hpc; exact nomatch hpc
  | recheckTrue hpc hflag => rw [hpc0] at hpc; exact nomatch hpc
  | recheckFalse hpc hflag => rw [hpc0] at hpc; exact nomatch hpc
  | readResLDo r1 hpc hw hst => rw [hpc0] at hpc; exact nomatch hpc
  | pollNotReady n1 hpc hslot hne1 => rw [hpc0] at hpc; exact nomatch hpc
  | pollReady n1 hpc hslot heq1 => rw [hpc0] at hpc; exact nomatch hpc
  | doStoreStep ws1 hpc hw hst => rw [hpc0] at hpc; exact nomatch hpc
  | setFlagStep ws1 hpc => rw [hpc0] at hpc; exact nomatch hpc
  | unparkStep ws1 hpc => rw [hpc0] at hpc; exact nomatch hpc
  | relStateLockStep hpc => rw [hpc0] at hpc; exact nomatch hpc
  | emptySlotStep hpc => rw [hpc0] at hpc; exact nomatch hpc
  | relDriveStep hpc => rw [hpc0] at hpc; exact nomatch hpc
  | unlockRegStep hpc => rw [hpc0] at hpc; exact nomatch hpc
  | registerDone r1 hpc hw hst => rw [hpc0] at hpc; exact nomatch hpc
  | registerWait ws1 hpc hw hst => rw [hpc0] at hpc; exact nomatch hpc
/-- Inversion: a registering thread (lines 160-166) either reads a `Done` outcome or appends itself to the waiter list and returns not-ready. -/
theorem step_from_register {K : Nat} {out : Except ε α} {t : Nat} {g g' : Global α ε}
    (hpc0 : g.threads t = PC.register) (hs : Step K out t g g') :
    (∃ r, g.st = SState.Done r ∧
      g' = { g with threads := upd g.threads t (PC.idle (some (readyOf r))) }) ∨
    (∃ ws, g.st = SState.Waiting ws ∧
      g' = { g with threads := upd g.threads t (PC.idle (some PollRes.notReady)),
                    st := SState.Waiting (ws ++ [t]) }) := by
  cases hs with
  | fastTrue r1 hpc hflag => rw [hpc0] at hpc; exact nomatch hpc
  | fastFalse r1 hpc hflag => rw [hpc0] at hpc; exact nomatch hpc
  | readResDo r1 hpc hw hst => rw [hpc0] at hpc; exact nomatch hpc
  | tryAcq hpc hlock => rw [hpc0] at hpc; exact nomatch hpc
  | tryFail hpc hlock => rw [hpc0] at hpc; exact nomatch hpc
  | recheckTrue hpc hflag => rw [hpc0] at hpc; exact nomatch hpc
  | recheckFalse hpc hflag => rw [hpc0] at hpc; exact nomatch hpc
  | readResLDo r1 hpc hw hst => rw [hpc0] at hpc; exact nomatch hpc
  | pollNotReady n1 hpc hslot hne1 => rw [hpc0] at hpc; exact nomatch hpc
  | pollReady n1 hpc hslot heq1 => rw [hpc0] at hpc; exact nomatch hpc
  | doStoreStep ws1 hpc hw hst => rw [hpc0] at hpc; exact nomatch hpc
  | setFlagStep ws1 hpc => rw [hpc0] at hpc; exact nomatch hpc
  | unparkStep ws1 hpc => rw [hpc0] at hpc; exact nomatch hpc
  | relStateLockStep hpc => rw [hpc0] at hpc; exact nomatch hpc
  | emptySlotStep hpc => rw [hpc0] at hpc; exact nomatch hpc
  | relDriveStep hpc => rw [hpc0] at hpc; exact nomatch hpc
  | unlockRegStep hpc => rw [hpc0] at hpc; exact nomatch hpc
  | registerDone r1 hpc hw hst => exact Or.inl ⟨r1, hst, rfl⟩
  | registerWait ws1 hpc hw hst => exact Or.inr ⟨ws1, hst, rfl⟩
/-- Inversion: the driver polls the underlying future (line 139), which completes exactly on its `K`-th poll. -/
theorem step_from_pollF {K : Nat} {out : Except ε α} {t : Nat} {g g' : Global α ε}
    (hpc0 : g.threads t = PC.pollF) (hs : Step K out t g g') :
    ∃ n, g.slot = some n ∧
      ((n + 1 ≠ K ∧ g' = { g with threads := upd g.threads t PC.unlockReg,
                                  slot := some (n + 1), polls := g.polls + 1 }) ∨
       (n + 1 = K ∧ g' = { g with threads := upd g.threads t PC.doStore,
                                  slot := some (n + 1), polls := g.polls + 1 })) := by
  cases hs with
  | fastTrue r1 hpc hflag => rw [hpc0] at hpc; exact nomatch hpc
  | fastFalse r1 hpc hflag => rw [hpc0] at hpc; exact nomatch hpc
  | readResDo r1 hpc hw hst => rw [hpc0] at hpc; exact nomatch hpc
  | tryAcq hpc hlock => rw [hpc0] at hpc; exact nomatch hpc
  | tryFail hpc hlock => rw [hpc0] at hpc; exact nomatch hpc
  | recheckTrue hpc hflag => rw [hpc0] at hpc; exact nomatch hpc
  | recheckFalse hpc hflag => rw [hpc0] at hpc; exact nomatch hpc
  | readResLDo r1 hpc hw hst => rw [hpc0] at hpc; exact nomatch hpc
  | pollNotReady n1 hpc hslot hne1 => exact ⟨n1, hslot, Or.inl ⟨hne1, rfl⟩⟩
  | pollReady n1 hpc hslot heq1 => exact ⟨n1, hslot, Or.inr ⟨heq1, rfl⟩⟩
  | doStoreStep ws1 hpc hw hst => rw [hpc0] at hpc; exact nomatch hpc
  | setFlagStep ws1 hpc => rw [hpc0] at hpc; exact nomatch hpc
  | unparkStep ws1 hpc => rw [hpc0] at hpc; exact nomatch hpc
  | relStateLockStep hpc => rw [hpc0] at hpc; exact nomatch hpc
  | emptySlotStep hpc => rw [hpc0] at hpc; exact nomatch hpc
  | relDriveStep hpc => rw [hpc0] at hpc; exact nomatch hpc
  | unlockRegStep hpc => rw [hpc0] at hpc; exact nomatch hpc
  | registerDone r1 hpc hw hst => rw [hpc0] at hpc; exact nomatch hpc
  | registerWait ws1 hpc hw hst => rw [hpc0] at hpc; exact nomatch hpc
/-- Inversion: the `mem::replace` of `store_result` (line 85) runs from a `Waiting` state under the write lock and installs `Done`. -/
theorem step_from_doStore {K : Nat} {out : Except ε α} {t : Nat} {g g' : Global α ε}
    (hpc0 : g.threads t = PC.doStore) (hs : Step K out t g g') :
    ∃ ws, g.writerHeld = false ∧ g.st = SState.Waiting ws ∧
      g' = { g with threads := upd g.threads t (PC.setFlag ws),
                    st := SState.Done (mkOutcome out), writerHeld := true } := by
  cases hs with
  | fastTrue r1 hpc hflag => rw [hpc0] at hpc; exact nomatch hpc
  | fastFalse r1 hpc hflag => rw [hpc0] at hpc; exact nomatch hpc
  | readResDo r1 hpc hw hst => rw [hpc0] at hpc; exact nomatch hpc
  | tryAcq hpc hlock => rw [hpc0] at hpc; exact nomatch hpc
  | tryFail hpc hlock => rw [hpc0] at hpc; exact nomatch hpc
  | recheckTrue hpc hflag => rw [hpc0] at hpc; exact nomatch hpc
  | recheckFalse hpc hflag => rw [hpc0] at hpc; exact nomatch hpc
  | readResLDo r1 hpc hw hst => rw [hpc0] at hpc; exact nomatch hpc
  | pollNotReady n1 hpc hslot hne1 => rw [hpc0] at hpc; exact nomatch hpc
  | pollReady n1 hpc hslot heq1 => rw [hpc0] at hpc; exact nomatch hpc
  | doStoreStep ws1 hpc hw hst => exact ⟨ws1, hw, hst, rfl⟩
  | setFlagStep ws1 hpc => rw [hpc0] at hpc; exact nomatch hpc
  | unparkStep ws1 hpc => rw [hpc0] at hpc; exact nomatch hpc
  | relStateLockStep hpc => rw [hpc0] at hpc; exact nomatch hpc
  | emptySlotStep hpc => rw [hpc0] at hpc; exact nomatch hpc
  | relDriveStep hpc => rw [hpc0] at hpc; exact nomatch hpc
  | unlockRegStep hpc => rw [hpc0] at hpc; exact nomatch hpc
  | registerDone r1 hpc hw hst => rw [hpc0] at hpc; exact nomatch hpc
  | registerWait ws1 hpc hw hst => rw [hpc0] at hpc; exact nomatch hpc
/-- Inversion: the step of a thread about to store the flag (line 88) sets `result_ready` and nothing else. -/
theorem step_from_setFlag {K : Nat} {out : Except ε α} {t : Nat} {g g' : Global α ε} {ws : List Nat}
    (hpc0 : g.threads t = PC.setFlag ws) (hs : Step K out t g g') :
    g' = { g with threads := upd g.threads t (PC.unparkW ws), flag := true } := by
  cases hs with
  | fastTrue r1 hpc hflag => rw [hpc0] at hpc; exact nomatch hpc
  | fastFalse r1 hpc hflag => rw [hpc0] at hpc; exact nomatch hpc
  | readResDo r1 hpc hw hst => rw [hpc0] at hpc; exact nomatch hpc
  | tryAcq hpc hlock => rw [hpc0] at hpc; exact nomatch hpc
  | tryFail hpc hlock => rw [hpc0] at hpc; exact nomatch hpc
  | recheckTrue hpc hflag => rw [hpc0] at hpc; exact nomatch hpc
  | recheckFalse hpc hflag => rw [hpc0] at hpc; exact nomatch hpc
  | readResLDo r1 hpc hw hst => rw [hpc0] at hpc; exact nomatch hpc
  | pollNotReady n1 hpc hslot hne1 => rw [hpc0] at hpc; exact nomatch hpc
  | pollReady n1 hpc hslot heq1 => rw [hpc0] at hpc; exact nomatch hpc
  | doStoreStep ws1 hpc hw hst => rw [hpc0] at hpc; exact nomatch hpc
  | setFlagStep ws1 hpc => rw [hpc0] at hpc; injection hpc with h2; subst h2; exact rfl
  | unparkStep ws1 hpc => rw [hpc0] at hpc; exact nomatch hpc
  | relStateLockStep hpc => rw [hpc0] at hpc; exact nomatch hpc
  | emptySlotStep hpc => rw [hpc0] at hpc; exact nomatch hpc
  | relDriveStep hpc => rw [hpc0] at hpc; exact nomatch hpc
  | unlockRegStep hpc => rw [hpc0] at hpc; exact nomatch hpc
  | registerDone r1 hpc hw hst => rw [hpc0] at hpc; exact nomatch hpc
  | registerWait ws1 hpc hw hst => rw [hpc0] at hpc; exact nomatch hpc
/-- Inversion: the unpark step (lines 89-91) wakes exactly the waiters captured at the transition, once each, and nothing else. -/
theorem step_from_unparkW {K : Nat} {out : Except ε α} {t : Nat} {g g' : Global α ε} {ws : List Nat}
    (hpc0 : g.threads t = PC.unparkW ws) (hs : Step K out t g g') :
    g' = { g with threads := upd g.threads t PC.relStateLock,
                  woken := g.woken ++ ws } := by
  cases hs with
  | fastTrue r1 hpc hflag => rw [hpc0] at hpc; exact nomatch hpc
  | fastFalse r1 hpc hflag => rw [hpc0] at hpc; exact nomatch hpc
  | readResDo r1 hpc hw hst => rw [hpc0] at hpc; exact nomatch hpc
  | tryAcq hpc hlock => rw [hpc0] at hpc; exact nomatch hpc
  | tryFail hpc hlock => rw [hpc0] at hpc; exact nomatch hpc
  | recheckTrue hpc hflag => rw [hpc0] at hpc; exact nomatch hpc
  | recheckFalse hpc hflag => rw [hpc0] at hpc; exact nomatch hpc
  | readResLDo r1 hpc hw hst => rw [hpc0] at hpc; exact nomatch hpc
  | pollNotReady n1 hpc hslot hne1 => rw [hpc0] at hpc; exact nomatch hpc
  | pollReady n1 hpc hslot heq1 => rw [hpc0] at hpc; exact nomatch hpc
  | doStoreStep ws1 hpc hw hst => rw [hpc0] at hpc; exact nomatch hpc
  | setFlagStep ws1 hpc => rw [hpc0] at hpc; exact nomatch hpc
  | unparkStep ws1 hpc => rw [hpc0] at hpc; injection hpc with h2; subst h2; exact rfl
  | relStateLockStep hpc => rw [hpc0] at hpc; exact nomatch hpc
  | emptySlotStep hpc => rw [hpc0] at hpc; exact nomatch hpc
  | relDriveStep hpc => rw [hpc0] at hpc; exact nomatch hpc
  | unlockRegStep hpc => rw [hpc0] at hpc; exact nomatch hpc
  | registerDone r1 hpc hw hst => rw [hpc0] at hpc; exact nomatch hpc
  | registerWait ws1 hpc hw hst => rw [hpc0] at hpc; exact nomatch hpc
/-- Inversion: the step at line 153 empties the drive slot and nothing else. -/
theorem step_from_emptySlot {K : Nat} {out : Except ε α} {t : Nat} {g g' : Global α ε}
    (hpc0 : g.threads t = PC.emptySlot) (hs : Step K out t g g') :
    g' = { g with threads := upd g.threads t PC.relDrive, slot := none } := by
  cases hs with
  | fastTrue r1 hpc hflag => rw [hpc0] at hpc; exact nomatch hpc
  | fastFalse r1 hpc hflag => rw [hpc0] at hpc; exact nomatch hpc
  | readResDo r1 hpc hw hst => rw [hpc0] at hpc; exact nomatch hpc
  | tryAcq hpc hlock => rw [hpc0] at hpc; exact nomatch hpc
  | tryFail hpc hlock => rw [hpc0] at hpc; exact nomatch hpc
  | recheckTrue hpc hflag => rw [hpc0] at hpc; exact nomatch hpc
  | recheckFalse hpc hflag => rw [hpc0] at hpc; exact nomatch hpc
  | readResLDo r1 hpc hw hst => rw [hpc0] at hpc; exact nomatch hpc
  | pollNotReady n1 hpc hslot hne1 => rw [hpc0] at hpc; exact nomatch hpc
  | pollReady n1 hpc hslot heq1 => rw [hpc0] at hpc; exact nomatch hpc
  | doStoreStep ws1 hpc hw hst => rw [hpc0] at hpc; exact nomatch hpc
  | setFlagStep ws1 hpc => rw [hpc0] at hpc; exact nomatch hpc
  | unparkStep ws1 hpc => rw [hpc0] at hpc; exact nomatch hpc
  | relStateLockStep hpc => rw [hpc0] at hpc; exact nomatch hpc
  | emptySlotStep hpc => exact rfl
  | relDriveStep hpc => rw [hpc0] at hpc; exact nomatch hpc
  | unlockRegStep hpc => rw [hpc0] at hpc; exact nomatch hpc
  | registerDone r1 hpc hw hst => rw [hpc0] at hpc; exact nomatch hpc
  | registerWait ws1 hpc hw hst => rw [hpc0] at hpc; exact nomatch hpc
/-- Inversion: the driver's return (line 154) releases the drive lock and returns ready with the freshly stored outcome. -/
theorem step_from_relDrive {K : Nat} {out : Except ε α} {t : Nat} {g g' : Global α ε}
    (hpc0 : g.threads t = PC.relDrive) (hs : Step K out t g g') :
    g' = { g with threads := upd g.threads t
                    (PC.idle (some (readyOf (mkOutcome out)))),
                  lockHeld := false } := by
  cases hs with
  | fastTrue r1 hpc hflag => rw [hpc0] at hpc; exact nomatch hpc
  | fastFalse r1 hpc hflag => rw [hpc0] at hpc; exact nomatch hpc
  | readResDo r1 hpc hw hst => rw [hpc0] at hpc; exact nomatch hpc
  | tryAcq hpc hlock => rw [hpc0] at hpc; exact nomatch hpc
  | tryFail hpc hlock => rw [hpc0] at hpc; exact nomatch hpc
  | recheckTrue hpc hflag => rw [hpc0] at hpc; exact nomatch hpc
  | recheckFalse hpc hflag => rw [hpc0] at hpc; exact nomatch hpc
  | readResLDo r1 hpc hw hst => rw [hpc0] at hpc; exact nomatch hpc
  | pollNotReady n1 hpc hslot hne1 => rw [hpc0] at hpc; exact nomatch hpc
  | pollReady n1 hpc hslot heq1 => rw [hpc0] at hpc; exact nomatch hpc
  | doStoreStep ws1 hpc hw hst => rw [hpc0] at hpc; exact nomatch hpc
  | setFlagStep ws1 hpc => rw [hpc0] at hpc; exact nomatch hpc
  | unparkStep ws1 hpc => rw [hpc0] at hpc; exact nomatch hpc
  | relStateLockStep hpc => rw [hpc0] at hpc; exact nomatch hpc
  | emptySlotStep hpc => rw [hpc0] at hpc; exact nomatch hpc
  | relDriveStep hpc => exact rfl
  | unlockRegStep hpc => rw [hpc0] at hpc; exact nomatch hpc
  | registerDone r1 hpc hw hst => rw [hpc0] at hpc; exact nomatch hpc
  | registerWait ws1 hpc hw hst => rw [hpc0] at hpc; exact nomatch hpc
/-- Inversion: after a not-ready poll the guard drop at line 158 releases the drive lock and nothing else. -/
theorem step_from_unlockReg {K : Nat} {out : Except ε α} {t : Nat} {g g' : Global α ε}
    (hpc0 : g.threads t = PC.unlockReg) (hs : Step K out t g g') :
    g' = { g with threads := upd g.threads t PC.register, lockHeld := false } := by
  cases hs with
  | fastTrue r1 hpc hflag => rw [hpc0] at hpc; exact nomatch hpc
  | fastFalse r1 hpc hflag => rw [hpc0] at hpc; exact nomatch hpc
  | readResDo r1 hpc hw hst => rw [hpc0] at hpc; exact nomatch hpc
  | tryAcq hpc hlock => rw [hpc0] at hpc; exact nomatch hpc
  | tryFail hpc hlock => rw [hpc0] at hpc; exact nomatch hpc
  | recheckTrue hpc hflag => rw [hpc0] at hpc; exact nomatch hpc
  | recheckFalse hpc hflag => rw [hpc0] at hpc; exact nomatch hpc
  | readResLDo r1 hpc hw hst => rw [hpc0] at hpc; exact nomatch hpc
  | pollNotReady n1 hpc hslot hne1 => rw [hpc0] at hpc; exact nomatch hpc
  | pollReady n1 hpc hslot heq1 => rw [hpc0] at hpc; exact nomatch hpc
  | doStoreStep ws1 hpc hw hst => rw [hpc0] at hpc; exact nomatch hpc
  | setFlagStep ws1 hpc => rw [hpc0] at hpc; exact nomatch hpc
  | unparkStep ws1 hpc => rw [hpc0] at hpc; exact nomatch hpc
  | relStateLockStep hpc => rw [hpc0] at hpc; exact nomatch hpc
  | emptySlotStep hpc => rw [hpc0] at hpc; exact nomatch hpc
  | relDriveStep hpc => rw [hpc0] at hpc; exact nomatch hpc
  | unlockRegStep hpc => exact rfl
  | registerDone r1 hpc hw hst => rw [hpc0] at hpc; exact nomatch hpc
  | registerWait ws1 hpc hw hst => rw [hpc0] at hpc; exact nomatch hpc

/-- Concrete run, thread 0 driving a future that completes on its first
poll with value `0`: the initial state. -/
def cg0 : Global Nat Nat := initG

/-- After the fast-path check (flag false). -/
def cg1 : Global Nat Nat := { cg0 with threads := upd cg0.threads 0 PC.tryLock }

/-- After acquiring the drive lock. -/
def cg2 : Global Nat Nat :=
  { cg1 with threads := upd cg1.threads 0 PC.recheck, lockHeld := true }

/-- After the recheck (flag still false). -/
def cg3 : Global Nat Nat := { cg2 with threads := upd cg2.threads 0 PC.pollF }

/-- After the completing poll of the underlying future. -/
def cg4 : Global Nat Nat :=
  { cg3 with threads := upd cg3.threads 0 PC.doStore, slot := some 1,
             polls := cg3.polls + 1 }

/-- After the `mem::replace` installing `Done`. -/
def cg5 : Global Nat Nat :=
  { cg4 with threads := upd cg4.threads 0 (PC.setFlag []),
             st := SState.Done (mkOutcome (Except.ok 0)), writerHeld := true }

/-- After `result_ready.store(true)`: the flag is set but the drive slot
still holds the consumed future. -/
def cg6 : Global Nat Nat :=
  { cg5 with threads := upd cg5.threads 0 (PC.unparkW []), flag := true }

/-- After unparking the (empty) waiter list. -/
def cg7 : Global Nat Nat :=
  { cg6 with threads := upd cg6.threads 0 PC.relStateLock,
             woken := cg6.woken ++ [] }

/-- After releasing the state write lock. -/
def cg8 : Global Nat Nat :=
  { cg7 with threads := upd cg7.threads 0 PC.emptySlot, writerHeld := false }

/-- After emptying the drive slot. -/
def cg9 : Global Nat Nat :=
  { cg8 with threads := upd cg8.threads 0 PC.relDrive, slot := none }

/-- After releasing the drive lock and returning ready. -/
def cg10 : Global Nat Nat :=
  { cg9 with threads := upd cg9.threads 0
               (PC.idle (some (readyOf (mkOutcome (Except.ok 0))))),
             lockHeld := false }

/-- A second thread takes the fast path after completion. -/
def cg11 : Global Nat Nat := { cg10 with threads := upd cg10.threads 1 PC.readRes }

theorem reach_cg0 : Reach 1 (Except.ok 0) cg0 := Reach.init

theorem reach_cg1 : Reach 1 (Except.ok 0) cg1 :=
  Reach.step reach_cg0 (Step.fastFalse 0 cg0 none rfl rfl)

theorem reach_cg2 : Reach 1 (Except.ok 0) cg2 :=
  Reach.step reach_cg1 (Step.tryAcq 0 cg1 rfl rfl)

theorem reach_cg3 : Reach 1 (Except.ok 0) cg3 :=
  Reach.step reach_cg2 (Step.recheckFalse 0 cg2 rfl rfl)

theorem reach_cg4 : Reach 1 (Except.ok 0) cg4 :=
  Reach.step reach_cg3 (Step.pollReady 0 cg3 0 rfl rfl rfl)

theorem reach_cg5 : Reach 1 (Except.ok 0) cg5 :=
  Reach.step reach_cg4 (Step.doStoreStep 0 cg4 [] rfl rfl rfl)

theorem reach_cg6 : Reach 1 (Except.ok 0) cg6 :=
  Reach.step reach_cg5 (Step.setFlagStep 0 cg5 [] rfl)

theorem reach_cg7 : Reach 1 (Except.ok 0) cg7 :=
  Reach.step reach_cg6 (Step.unparkStep 0 cg6 [] rfl)

theorem reach_cg8 : Reach 1 (Except.ok 0) cg8 :=
  Reach.step reach_cg7 (Step.relStateLockStep 0 cg7 rfl)

theorem reach_cg9 : Reach 1 (Except.ok 0) cg9 :=
  Reach.step reach_cg8 (Step.emptySlotStep 0 cg8 rfl)

theorem reach_cg10 : Reach 1 (Except.ok 0) cg10 :=
  Reach.step reach_cg9 (Step.relDriveStep 0 cg9 rfl)

theorem reach_cg11 : Reach 1 (Except.ok 0) cg11 :=
  Reach.step reach_cg10 (Step.fastTrue 1 cg10 none rfl rfl)

/-- Concrete run against a future that needs two polls: initial state. -/
def dg0 : Global Nat Nat := initG

/-- After the fast-path check. -/
def dg1 : Global Nat Nat := { dg0 with threads := upd dg0.threads 0 PC.tryLock }

/-- After acquiring the drive lock. -/
def dg2 : Global Nat Nat :=
  { dg1 with threads := upd dg1.threads 0 PC.recheck, lockHeld := true }

/-- After the recheck. -/
def dg3 : Global Nat Nat := { dg2 with threads := upd dg2.threads 0 PC.pollF }

/-- After a not-ready poll: the slot keeps the future with its progress. -/
def dg4 : Global Nat Nat :=
  { dg3 with threads := upd dg3.threads 0 PC.unlockReg, slot := some 1,
             polls := dg3.polls + 1 }

/-- After releasing the drive lock. -/
def dg5 : Global Nat Nat :=
  { dg4 with threads := upd dg4.threads 0 PC.register, lockHeld := false }

/-- After the driver registered itself as a waiter. -/
def dg6 : Global Nat Nat :=
  { dg5 with threads := upd dg5.threads 0 (PC.idle (some PollRes.notReady)),
             st := SState.Waiting ([] ++ [0]) }

theorem reach_dg0 : Reach 2 (Except.ok 5) dg0 := Reach.init

theorem reach_dg1 : Reach 2 (Except.ok 5) dg1 :=
  Reach.step reach_dg0 (Step.fastFalse 0 dg0 none rfl rfl)

theorem reach_dg2 : Reach 2 (Except.ok 5) dg2 :=
  Reach.step reach_dg1 (Step.tryAcq 0 dg1 rfl rfl)

theorem reach_dg3 : Reach 2 (Except.ok 5) dg3 :=
  Reach.step reach_dg2 (Step.recheckFalse 0 dg2 rfl rfl)

theorem reach_dg4 : Reach 2 (Except.ok 5) dg4 :=
  Reach.step reach_dg3 (Step.pollNotReady 0 dg3 0 rfl rfl (by decide))

theorem reach_dg5 : Reach 2 (Except.ok 5) dg5 :=
  Reach.step reach_dg4 (Step.unlockRegStep 0 dg4 rfl)

theorem reach_dg6 : Reach 2 (Except.ok 5) dg6 :=
  Reach.step reach_dg5 (Step.registerWait 0 dg5 [] rfl rfl rfl)

/-- Concrete run against a future that fails on its first poll with
error `7`: initial state. -/
def eg0 : Global Nat Nat := initG

/-- After the fast-path check. -/
def eg1 : Global Nat Nat := { eg0 with threads := upd eg0.threads 0 PC.tryLock }

/-- After acquiring the drive lock. -/
def eg2 : Global Nat Nat :=
  { eg1 with threads := upd eg1.threads 0 PC.recheck, lockHeld := true }

/-- After the recheck. -/
def eg3 : Global Nat Nat := { eg2 with threads := upd eg2.threads 0 PC.pollF }

/-- After the failing poll. -/
def eg4 : Global Nat Nat :=
  { eg3 with threads := upd eg3.threads 0 PC.doStore, slot := some 1,
             polls := eg3.polls + 1 }

/-- After the `mem::replace` installing `Done(Err(..))`. -/
def eg5 : Global Nat Nat :=
  { eg4 with threads := upd eg4.threads 0 (PC.setFlag []),
             st := SState.Done (mkOutcome (Except.error 7)), writerHeld := true }

/-- After the flag store. -/
def eg6 : Global Nat Nat :=
  { eg5 with threads := upd eg5.threads 0 (PC.unparkW []), flag := true }

/-- After the unpark loop. -/
def eg7 : Global Nat Nat :=
  { eg6 with threads := upd eg6.threads 0 PC.relStateLock,
             woken := eg6.woken ++ [] }

/-- After releasing the state write lock. -/
def eg8 : Global Nat Nat :=
  { eg7 with threads := upd eg7.threads 0 PC.emptySlot, writerHeld := false }

/-- After emptying the drive slot. -/
def eg9 : Global Nat Nat :=
  { eg8 with threads := upd eg8.threads 0 PC.relDrive, slot := none }

/-- After releasing the drive lock and returning the error. -/
def eg10 : Global Nat Nat :=
  { eg9 with threads := upd eg9.threads 0
               (PC.idle (some (readyOf (mkOutcome (Except.error 7))))),
             lockHeld := false }

/-- A second thread takes the fast path after the failure is cached. -/
def eg11 : Global Nat Nat := { eg10 with threads := upd eg10.threads 1 PC.readRes }

theorem reach_eg0 : Reach 1 (Except.error 7) eg0 := Reach.init

theorem reach_eg1 : Reach 1 (Except.error 7) eg1 :=
  Reach.step reach_eg0 (Step.fastFalse 0 eg0 none rfl rfl)

theorem reach_eg2 : Reach 1 (Except.error 7) eg2 :=
  Reach.step reach_eg1 (Step.tryAcq 0 eg1 rfl rfl)

theorem reach_eg3 : Reach 1 (Except.error 7) eg3 :=
  Reach.step reach_eg2 (Step.recheckFalse 0 eg2 rfl rfl)

theorem reach_eg4 : Reach 1 (Except.error 7) eg4 :=
  Reach.step reach_eg3 (Step.pollReady 0 eg3 0 rfl rfl rfl)

theorem reach_eg5 : Reach 1 (Except.error 7) eg5 :=
  Reach.step reach_eg4 (Step.doStoreStep 0 eg4 [] rfl rfl rfl)

theorem reach_eg6 : Reach 1 (Except.error 7) eg6 :=
  Reach.step reach_eg5 (Step.setFlagStep 0 eg5 [] rfl)

theorem reach_eg7 : Reach 1 (Except.error 7) eg7 :=
  Reach.step reach_eg6 (Step.unparkStep 0 eg6 [] rfl)

theorem reach_eg8 : Reach 1 (Except.error 7) eg8 :=
  Reach.step reach_eg7 (Step.relStateLockStep 0 eg7 rfl)

theorem reach_eg9 : Reach 1 (Except.error 7) eg9 :=
  Reach.step reach_eg8 (Step.emptySlotStep 0 eg8 rfl)

theorem reach_eg10 : Reach 1 (Except.error 7) eg10 :=
  Reach.step reach_eg9 (Step.relDriveStep 0 eg9 rfl)

/-- C9: after the underlying computation fails once, the error is cached
like a value: the `Done` outcome is the single wrapped error allocation,
it never changes, the underlying future is never polled again, and every
poll call that returns from this point on returns ready-with-error
carrying that identical allocation. -/
theorem error_convergence {K : Nat} {e : ε} {g : Global α ε}
    {r : Except (SharedError ε) (SharedItem α)}
    (hK : 1 ≤ K) (hg : Reach K (Except.error e) g) (hr : g.st = SState.Done r) :
    r = Except.error (SharedError.new 0 e) ∧
    (∀ t g', Step K (Except.error e) t g g' →
        g'.st = SState.Done r ∧ g'.polls = g.polls) ∧
    (∀ t g' rv, Step K (Except.error e) t g g' →
        g'.threads t = PC.idle (some rv) → g.threads t ≠ PC.idle (some rv) →
        rv = PollRes.err (SharedError.new 0 e)) := by
  have h := reach_inv hK hg
  have hout : r = mkOutcome (Except.error e) := h.doneOutcome r hr
  refine ⟨hout, ?_, ?_⟩
  · intro t g' hs
    exact ⟨done_perm hs hr, polls_frozen h hs hr⟩
  · intro t g' rv hs hidle hne0
    cases hs with
    | fastTrue r1 hpc hflag => simp [upd] at hidle
    | fastFalse r1 hpc hflag => simp [upd] at hidle
    | readResDo r1 hpc hw hst =>
      rw [hr] at hst
      injection hst with h2
      have hidle2 : upd g.threads t (PC.idle (some (readyOf r1))) t
          = PC.idle (some rv) := hidle
      rw [upd_self] at hidle2
      injection hidle2 with h3
      injection h3 with h4
      rw [← h4, ← h2, hout]
      rfl
    | tryAcq hpc hlock => simp [upd] at hidle
    | tryFail hpc hlock => simp [upd] at hidle
    | recheckTrue hpc hflag => simp [upd] at hidle
    | recheckFalse hpc hflag => simp [upd] at hidle
    | readResLDo r1 hpc hw hst =>
      rw [hr] at hst
      injection hst with h2
      have hidle2 : upd g.threads t (PC.idle (some (readyOf r1))) t
          = PC.idle (some rv) := hidle
      rw [upd_self] at hidle2
      injection hidle2 with h3
      injection h3 with h4
      rw [← h4, ← h2, hout]
      rfl
    | pollNotReady n1 hpc hslot hne1 => simp [upd] at hidle
    | pollReady n1 hpc hslot heq1 => simp [upd] at hidle
    | doStoreStep ws1 hpc hw hst => simp [upd] at hidle
    | setFlagStep ws1 hpc => simp [upd] at hidle
    | unparkStep ws1 hpc => simp [upd] at hidle
    | relStateLockStep hpc => simp [upd] at hidle
    | emptySlotStep hpc => simp [upd] at hidle
    | relDriveStep hpc =>
      have hidle2 : upd g.threads t
          (PC.idle (some (readyOf (mkOutcome (Except.error e))))) t
          = PC.idle (some rv) := hidle
      rw [upd_self] at hidle2
      injection hidle2 with h3
      injection h3 with h4
      rw [← h4]
      rfl
    | unlockRegStep hpc => simp [upd] at hidle
    | registerDone r1 hpc hw hst =>
      rw [hr] at hst
      injection hst with h2
      have hidle2 : upd g.threads t (PC.idle (some (readyOf r1))) t
          = PC.idle (some rv) := hidle
      rw [upd_self] at hidle2
      injection hidle2 with h3
      injection h3 with h4
      rw [← h4, ← h2, hout]
      rfl
    | registerWait ws1 hpc hw hst => rw [hr] at hst; exact nomatch hst


/-- C9 witness: in the concrete failing run the cached outcome is the
single error allocation, and it persists across a further step. -/
theorem error_convergence_witness :
    mkOutcome (Except.error 7 : Except Nat Nat) = Except.error (SharedError.new 0 7) ∧
    eg11.st = SState.Done (mkOutcome (Except.error 7 : Except Nat Nat)) := by
  have h := error_convergence (by decide) reach_eg10
    (rfl : eg10.st = SState.Done (mkOutcome (Except.error 7)))
  exact ⟨h.1, (h.2.1 1 eg11 (Step.fastTrue 1 eg10 none rfl rfl)).1⟩

/-- C1: against a computation that completes after exactly `K` polls, the
underlying future receives at most `K` polls in any reachable state of
any interleaving of any number of threads, and exactly `K` polls in every
state where the shared outcome is cached. -/
theorem single_drive_poll_count {K : Nat} {out : Except ε α} {g : Global α ε}
    (hK : 1 ≤ K) (hg : Reach K out g) :
    g.polls ≤ K ∧ (∀ r, g.st = SState.Done r → g.polls = K) := by
  have h := reach_inv hK hg
  exact ⟨h.pollsLe, h.donePolls⟩

/-- C1 witness: the completed concrete run polled the `K = 1` future
exactly once. -/
theorem single_drive_poll_count_witness : cg10.polls = 1 := by
  have h := single_drive_poll_count (by decide) reach_cg10
  exact h.2 (mkOutcome (Except.ok 0)) rfl

/-- C3: a poll call that observes the flag true at entry reads the cached
`Done` outcome and returns it mapped to ready; both of its steps change
nothing but the calling thread's own position — in particular the drive
lock is never acquired or touched. -/
theorem fast_path_no_drive_lock {K : Nat} {out : Except ε α} {g : Global α ε}
    (hK : 1 ≤ K) (hg : Reach K out g) (hf : g.flag = true) :
    (∃ r, g.st = SState.Done r) ∧
    (∀ t r0 g', g.threads t = PC.idle r0 → Step K out t g g' →
        g' = { g with threads := upd g.threads t PC.readRes }) ∧
    (∀ t g', g.threads t = PC.readRes → Step K out t g g' →
        ∃ r, g.st = SState.Done r ∧
          g' = { g with threads := upd g.threads t (PC.idle (some (readyOf r))) }) := by
  have h := reach_inv hK hg
  refine ⟨h.flagDone hf, ?_, ?_⟩
  · intro t r0 g' hpc0 hs
    rcases step_from_idle hpc0 hs with ⟨_, hg'⟩ | ⟨hff, _⟩
    · exact hg'
    · exact nomatch (hff.symm.trans hf)
  · intro t g' hpc0 hs
    obtain ⟨r, hst, _, hg'⟩ := step_from_readRes hpc0 hs
    exact ⟨r, hst, hg'⟩

/-- C3 witness: a fresh thread polling the completed concrete run moves to
the cached read without touching the drive lock or any shared field. -/
theorem fast_path_no_drive_lock_witness :
    cg11 = { cg10 with threads := upd cg10.threads 1 PC.readRes } ∧
    cg11.lockHeld = cg10.lockHeld := by
  have h := (fast_path_no_drive_lock (by decide) reach_cg10 rfl).2.1 1 none cg11
    rfl (Step.fastTrue 1 cg10 none rfl rfl)
  exact ⟨h, rfl⟩

/-- C4: the driver's completion sequence.  From the `mem::replace` on a
`Waiting` state: the state becomes `Done` wrapping the outcome in a
result cell, then the flag is stored true, then exactly the waiters
captured at the transition are unparked (each once — the ghost wake list
grows only in this step), then the drive slot is emptied, then the driver
releases the drive lock and returns ready with the stored outcome. -/
theorem driver_completion_sequence {K : Nat} {out : Except ε α} {g : Global α ε} :
    (∀ t g', g.threads t = PC.doStore → Step K out t g g' →
        ∃ ws, g.st = SState.Waiting ws ∧
          g' = { g with threads := upd g.threads t (PC.setFlag ws),
                        st := SState.Done (mkOutcome out), writerHeld := true }) ∧
    (∀ t ws g', g.threads t = PC.setFlag ws → Step K out t g g' →
        g' = { g with threads := upd g.threads t (PC.unparkW ws), flag := true }) ∧
    (∀ t ws g', g.threads t = PC.unparkW ws → Step K out t g g' →
        g' = { g with threads := upd g.threads t PC.relStateLock,
                      woken := g.woken ++ ws }) ∧
    (∀ t g', g.threads t = PC.emptySlot → Step K out t g g' →
        g' = { g with threads := upd g.threads t PC.relDrive, slot := none }) ∧
    (∀ t g', g.threads t = PC.relDrive → Step K out t g g' →
        g' = { g with threads := upd g.threads t
                        (PC.idle (some (readyOf (mkOutcome out)))),
                      lockHeld := false }) ∧
    (∀ t g', Step K out t g g' → g'.woken = g.woken ∨
        ∃ ws, g.threads t = PC.unparkW ws ∧ g'.woken = g.woken ++ ws) := by
  refine ⟨?_, ?_, ?_, ?_, ?_, ?_⟩
  · intro t g' hpc0 hs
    obtain ⟨ws, _, hst, hg'⟩ := step_from_doStore hpc0 hs
    exact ⟨ws, hst, hg'⟩
  · intro t ws g' hpc0 hs
    exact step_from_setFlag hpc0 hs
  · intro t ws g' hpc0 hs
    exact step_from_unparkW hpc0 hs
  · intro t g' hpc0 hs
    exact step_from_emptySlot hpc0 hs
  · intro t g' hpc0 hs
    exact step_from_relDrive hpc0 hs
  · intro t g' hs
    cases hs with
    | unparkStep ws1 hpc => exact Or.inr ⟨ws1, hpc, rfl⟩
    | fastTrue r1 hpc hflag => exact Or.inl rfl
    | fastFalse r1 hpc hflag => exact Or.inl rfl
    | readResDo r1 hpc hw hst => exact Or.inl rfl
    | tryAcq hpc hlock => exact Or.inl rfl
    | tryFail hpc hlock => exact Or.inl rfl
    | recheckTrue hpc hflag => exact Or.inl rfl
    | recheckFalse hpc hflag => exact Or.inl rfl
    | readResLDo r1 hpc hw hst => exact Or.inl rfl
    | pollNotReady n1 hpc hslot hne1 => exact Or.inl rfl
    | pollReady n1 hpc hslot heq1 => exact Or.inl rfl
    | doStoreStep ws1 hpc hw hst => exact Or.inl rfl
    | setFlagStep ws1 hpc => exact Or.inl rfl
    | relStateLockStep hpc => exact Or.inl rfl
    | emptySlotStep hpc => exact Or.inl rfl
    | relDriveStep hpc => exact Or.inl rfl
    | unlockRegStep hpc => exact Or.inl rfl
    | registerDone r1 hpc hw hst => exact Or.inl rfl
    | registerWait ws1 hpc hw hst => exact Or.inl rfl

/-- C4 witness: the concrete driver's `mem::replace` step installs the
wrapped value and hands over the registered waiters. -/
theorem driver_completion_sequence_witness :
    cg5.st = SState.Done (Except.ok (SharedItem.new 0 0)) ∧
    cg5.writerHeld = true := by
  obtain ⟨ws, hst, hg'⟩ := driver_completion_sequence.1 0 cg5 rfl
    (Step.doStoreStep 0 cg4 [] rfl rfl rfl : Step 1 (Except.ok 0) 0 cg4 cg5)
  constructor
  · rw [hg']; rfl
  · rw [hg']

/-- C5: a poll call at the registration step takes the state write lock;
if the state has become `Done` it returns the cached outcome immediately,
otherwise it appends the calling task's handle at the end of the waiter
list (preserving insertion order) and returns not-ready. -/
theorem register_and_suspend {K : Nat} {out : Except ε α} {t : Nat}
    {g g' : Global α ε}
    (hpc0 : g.threads t = PC.register) (hs : Step K out t g g') :
    (∀ r, g.st = SState.Done r →
        g' = { g with threads := upd g.threads t (PC.idle (some (readyOf r))) }) ∧
    (∀ ws, g.st = SState.Waiting ws →
        g' = { g with threads := upd g.threads t (PC.idle (some PollRes.notReady)),
                      st := SState.Waiting (ws ++ [t]) }) := by
  constructor
  · intro r hr
    rcases step_from_register hpc0 hs with ⟨r', hst, hg'⟩ | ⟨ws, hst, hg'⟩
    · rw [hr] at hst
      injection hst with h2
      rw [h2]
      exact hg'
    · rw [hr] at hst
      exact nomatch hst
  · intro ws hws
    rcases step_from_register hpc0 hs with ⟨r', hst, hg'⟩ | ⟨ws', hst, hg'⟩
    · rw [hws] at hst
      exact nomatch hst
    · rw [hws] at hst
      injection hst with h2
      rw [h2]
      exact hg'

/-- C5 witness: in the concrete two-poll run the driver registers itself
and the waiter list records it in insertion order. -/
theorem register_and_suspend_witness :
    dg6.st = SState.Waiting [0] ∧
    dg6.threads 0 = PC.idle (some PollRes.notReady) := by
  have h : dg6 = { dg5 with
      threads := upd dg5.threads 0 (PC.idle (some PollRes.notReady)),
      st := SState.Waiting ([] ++ [0]) } :=
    (register_and_suspend rfl
      (Step.registerWait 0 dg5 [] rfl rfl rfl :
        Step 2 (Except.ok 5) 0 dg5 dg6)).2 [] rfl
  constructor
  · rw [h]; rfl
  · rw [h]; rfl

/-- C6: when the driver's poll of the underlying future returns
not-ready, the drive slot stays populated with the future's advanced
state, the shared state, flag and wake list are untouched (and the flag
was false), the guard drop then releases only the drive lock, and the
driver's only mutation afterwards is appending itself to the waiter list
before returning not-ready. -/
theorem not_ready_frame {K : Nat} {out : Except ε α} {g : Global α ε}
    (hK : 1 ≤ K) (hg : Reach K out g) :
    (∀ t n g', g.threads t = PC.pollF → g.slot = some n → n + 1 ≠ K →
        Step K out t g g' →
        g.flag = false ∧
        g' = { g with threads := upd g.threads t PC.unlockReg,
                      slot := some (n + 1), polls := g.polls + 1 }) ∧
    (∀ t g', g.threads t = PC.unlockReg → Step K out t g g' →
        g' = { g with threads := upd g.threads t PC.register,
                      lockHeld := false }) ∧
    (∀ t ws g', g.threads t = PC.register → g.st = SState.Waiting ws →
        Step K out t g g' →
        g' = { g with threads := upd g.threads t (PC.idle (some PollRes.notReady)),
                      st := SState.Waiting (ws ++ [t]) }) := by
  have h := reach_inv hK hg
  refine ⟨?_, ?_, ?_⟩
  · intro t n g' hpc0 hslot hne hs
    obtain ⟨n', hslot', hcase⟩ := step_from_pollF hpc0 hs
    have hn : n' = n := by
      rw [hslot] at hslot'
      injection hslot' with h2
      exact h2.symm
    subst hn
    rcases hcase with ⟨_, hg'⟩ | ⟨heq', _⟩
    · exact ⟨h.preFlagFalse t (by rw [hpc0]; rfl), hg'⟩
    · exact absurd heq' hne
  · intro t g' hpc0 hs
    exact step_from_unlockReg hpc0 hs
  · intro t ws g' hpc0 hws hs
    rcases step_from_register hpc0 hs with ⟨r', hst, hg'⟩ | ⟨ws', hst, hg'⟩
    · rw [hws] at hst
      exact nomatch hst
    · rw [hws] at hst
      injection hst with h2
      rw [h2]
      exact hg'

/-- C6 witness: the concrete not-ready poll keeps the slot populated with
the advanced future and leaves state, flag and wake list unchanged. -/
theorem not_ready_frame_witness :
    dg3.flag = false ∧ dg4.slot = some 1 ∧ dg4.st = dg3.st := by
  have h := (not_ready_frame (by decide) reach_dg3).1 0 0 dg4 rfl rfl (by decide)
    (Step.pollNotReady 0 dg3 0 rfl rfl (by decide))
  exact ⟨h.1, by rw [h.2], by rw [h.2]⟩

/-- C7 counterexample: the claim fails as stated.  In the concrete run,
immediately after the driver's `result_ready.store(true)` (line 88) but
before `*original_future_option = None` (line 153), the flag is true
while the drive slot still holds the consumed future. -/
theorem flag_invariant_counterexample :
    ¬ (∀ g : Global Nat Nat, Reach 1 (Except.ok 0) g → g.flag = true →
        g.slot = none ∧ ∃ r, g.st = SState.Done r) := by
  intro hclaim
  exact nomatch (hclaim cg6 reach_cg6 rfl).1

/-- C7 amended: once the flag is true the state is `Done`; the drive slot
is guaranteed empty whenever additionally the drive lock is free (the
completing driver still holds the drive lock during the window between
the flag store and emptying the slot); and both facts are permanent. -/
theorem flag_invariant_amended {K : Nat} {out : Except ε α} {g : Global α ε}
    (hK : 1 ≤ K) (hg : Reach K out g) (hf : g.flag = true) :
    (∃ r, g.st = SState.Done r) ∧
    (g.lockHeld = false → g.slot = none) ∧
    (∀ t g', Step K out t g g' →
        g'.flag = true ∧ ∀ r, g.st = SState.Done r → g'.st = SState.Done r) := by
  have h := reach_inv hK hg
  refine ⟨h.flagDone hf, ?_, ?_⟩
  · intro hlock
    cases hsl : g.slot with
    | none => rfl
    | some n =>
        obtain ⟨u, hu⟩ := h.flagSlot hf (by rw [hsl]; exact fun c => nomatch c)
        have hl := h.lockAt u (drive_of_mid hu)
        rw [hl] at hlock
        exact nomatch hlock
  · intro t g' hs
    exact ⟨flag_mono hs hf, fun r hr => done_perm hs hr⟩

/-- C7 amended witness: at the end of the concrete run the flag is true,
the drive lock is free, and the slot is indeed empty and the state Done. -/
theorem flag_invariant_amended_witness :
    (∃ r, cg10.st = SState.Done r) ∧ cg10.slot = none := by
  have h := flag_invariant_amended (by decide) reach_cg10 rfl
  exact ⟨h.1, h.2.1 rfl⟩

/-- C10: the flag store happens only from the dedicated program point
inside `store_result`, at which the state is already `Done` and the state
write lock is still held (line 87 drops only a reborrow); consequently
the flag being true implies the state is `Done`, and every thread about
to execute `read_result` finds the state `Done` — its panic branch is
unreachable through `poll`. -/
theorem flag_store_under_writer_lock {K : Nat} {out : Except ε α} {g : Global α ε}
    (hK : 1 ≤ K) (hg : Reach K out g) :
    (∀ t g', Step K out t g g' → g.flag = false → g'.flag = true →
        (∃ r, g.st = SState.Done r) ∧ g.writerHeld = true) ∧
    (g.flag = true → ∃ r, g.st = SState.Done r) ∧
    (∀ t, readPC (g.threads t) = true → ∃ r, g.st = SState.Done r) := by
  have h := reach_inv hK hg
  refine ⟨?_, h.flagDone, ?_⟩
  · intro t g' hs hf0 hf1
    cases hs with
    | setFlagStep ws1 hpc =>
        exact ⟨h.postDone t (by rw [hpc]; rfl), h.writerAt t (by rw [hpc]; rfl)⟩
    | fastTrue r1 hpc hflag => exact nomatch (hf0.symm.trans hf1)
    | fastFalse r1 hpc hflag => exact nomatch (hf0.symm.trans hf1)
    | readResDo r1 hpc hw hst => exact nomatch (hf0.symm.trans hf1)
    | tryAcq hpc hlock => exact nomatch (hf0.symm.trans hf1)
    | tryFail hpc hlock => exact nomatch (hf0.symm.trans hf1)
    | recheckTrue hpc hflag => exact nomatch (hf0.symm.trans hf1)
    | recheckFalse hpc hflag => exact nomatch (hf0.symm.trans hf1)
    | readResLDo r1 hpc hw hst => exact nomatch (hf0.symm.trans hf1)
    | pollNotReady n1 hpc hslot hne1 => exact nomatch (hf0.symm.trans hf1)
    | pollReady n1 hpc hslot heq1 => exact nomatch (hf0.symm.trans hf1)
    | doStoreStep ws1 hpc hw hst => exact nomatch (hf0.symm.trans hf1)
    | unparkStep ws1 hpc => exact nomatch (hf0.symm.trans hf1)
    | relStateLockStep hpc => exact nomatch (hf0.symm.trans hf1)
    | emptySlotStep hpc => exact nomatch (hf0.symm.trans hf1)
    | relDriveStep hpc => exact nomatch (hf0.symm.trans hf1)
    | unlockRegStep hpc => exact nomatch (hf0.symm.trans hf1)
    | registerDone r1 hpc hw hst => exact nomatch (hf0.symm.trans hf1)
    | registerWait ws1 hpc hw hst => exact nomatch (hf0.symm.trans hf1)
  · intro u hu
    exact h.flagDone (h.readFlag u hu)

/-- C10 witness: in the concrete run the flag-storing step finds the
state already `Done` and the write lock still held. -/
theorem flag_store_under_writer_lock_witness :
    (∃ r, cg5.st = SState.Done r) ∧ cg5.writerHeld = true :=
  (flag_store_under_writer_lock (by decide) reach_cg5).1 0 cg6
    (Step.setFlagStep 0 cg5 [] rfl) rfl rfl

/-- A concrete inner core whose state is already `Done` with a first
cached outcome. -/
def doneCore : CoreSt Nat Nat :=
  { flag := true, st := SState.Done (Except.ok (SharedItem.new 0 3)), woken := [] }

/-- A second, different outcome handed to `store_result`. -/
def secondOutcome : Except (SharedError Nat) (SharedItem Nat) :=
  Except.ok (SharedItem.new 1 4)

/-- C2 counterexample: calling `store_result` on an already-`Done` core
does panic, but by then the state cell already holds the *new* outcome —
the `mem::replace` at line 85 runs before the `Done` check at line 93 —
so the claim that the cached outcome is not overwritten fails. -/
theorem store_result_overwrite_counterexample :
    (store_result doneCore secondOutcome).2 = none ∧
    (store_result doneCore secondOutcome).1.st = SState.Done secondOutcome ∧
    ¬ (store_result doneCore secondOutcome).1.st
        = SState.Done (Except.ok (SharedItem.new 0 3)) := by
  refine ⟨rfl, rfl, ?_⟩
  decide

/-- C2 amended: a call to `store_result` on a `Done` state is a fatal
invariant violation (panic) — though the panic fires only after the
`mem::replace` has already put the new outcome into the state cell, and
without storing the flag; `store_result` always leaves the state `Done`;
and in the protocol machine `Done` never reverts to `Waiting` and the
cached outcome never changes. -/
theorem store_result_double_call_amended {α ε : Type} :
    (∀ (c : CoreSt α ε) (res : Except (SharedError ε) (SharedItem α))
        (r0 : Except (SharedError ε) (SharedItem α)),
        c.st = SState.Done r0 →
        (store_result c res).2 = none ∧
        (store_result c res).1.st = SState.Done res ∧
        (store_result c res).1.flag = c.flag) ∧
    (∀ (K : Nat) (out : Except ε α) (t : Nat) (g g' : Global α ε)
        (r : Except (SharedError ε) (SharedItem α)),
        Step K out t g g' → g.st = SState.Done r → g'.st = SState.Done r) ∧
    (∀ (c : CoreSt α ε) (res : Except (SharedError ε) (SharedItem α)),
        ∃ r', (store_result c res).1.st = SState.Done r') := by
  refine ⟨?_, ?_, ?_⟩
  · intro c res r0 hst
    obtain ⟨cf, cst, cw⟩ := c
    have hst2 : cst = SState.Done r0 := hst
    subst hst2
    exact ⟨rfl, rfl, rfl⟩
  · intro K out t g g' r hs hr
    exact done_perm hs hr
  · intro c res
    obtain ⟨cf, cst, cw⟩ := c
    cases cst with
    | Waiting ws => exact ⟨res, rfl⟩
    | Done r0 => exact ⟨res, rfl⟩

/-- C2 amended witness: the concrete double call panics with the state
cell replaced by the new outcome. -/
theorem store_result_double_call_amended_witness :
    (store_result doneCore secondOutcome).2 = none ∧
    (store_result doneCore secondOutcome).1.st = SState.Done secondOutcome := by
  have h := store_result_double_call_amended.1 doneCore secondOutcome
    (Except.ok (SharedItem.new 0 3)) rfl
  exact ⟨h.1, h.2.1⟩

/-- C8: the result cells take ownership of the wrapped value:
dereferencing the cell or any clone of it returns that value unchanged;
cloning is the identity on the cell, so every clone shares the same
underlying allocation and the value itself is never copied; symmetrically
for error cells. -/
theorem result_cell_contract {α ε : Type} :
    (∀ (a : Nat) (v : α), (SharedItem.new a v).deref = v) ∧
    (∀ s : SharedItem α, s.clone = s) ∧
    (∀ s : SharedItem α, s.clone.deref = s.deref ∧ s.clone.alloc = s.alloc) ∧
    (∀ (a : Nat) (e : ε), (SharedError.new a e).deref = e) ∧
    (∀ s : SharedError ε, s.clone = s) ∧
    (∀ s : SharedError ε, s.clone.deref = s.deref ∧ s.clone.alloc = s.alloc) :=
  ⟨fun _ _ => rfl, fun _ => rfl, fun _ => ⟨rfl, rfl⟩,
   fun _ _ => rfl, fun _ => rfl, fun _ => ⟨rfl, rfl⟩⟩
